import Mathlib

/-!
Shallow embedding of the pairing engine of the Old-World-Pairings repository
(source: src/pairings.py, lines 756-1063) together with proofs of the
specified properties.

Conventions of the embedding:
* Python datetimes are modelled as natural-number timestamps; a week id
  string "DD/MM/YYYY" is parsed to a day number (proleptic Gregorian rata
  die), so that subtraction of parsed weeks gives the day difference used
  by the source.
* The database session is modelled by an explicit record of all stored
  signups and pairings; SQL where-clauses become list filters and the
  order-by on created_at becomes a stable insertion sort.
* Python sets of strings or string pairs are modelled as lists observed
  only through membership.
* Fallible Python code (try/except around parsing) becomes Option.
-/

namespace OWP

/-- The stored signup record (class Signup of the source).  The id is the
database primary key; fields unused by the engine (player_id, standby_ok)
are kept for completeness. -/
structure Signup where
  id : Nat
  created_at : Nat
  week : String
  system : String
  player_id : Option Nat := none
  player_name : String
  faction : Option String := none
  points : Option Int := none
  eta : Option String := none
  experience : Option String := none
  vibe : Option String := none
  standby_ok : Bool := false
  tnt_ok : Bool := false
  scenario : Option String := none
  can_demo : Bool := false
deriving DecidableEq

/-- The generated pairing record (class Pairing of the source).  The id and
table columns are database-managed and never set by the engine, so they are
omitted from the embedding. -/
structure Pairing where
  week : String
  system : String
  a_signup_id : Nat
  b_signup_id : Option Nat := none
  status : String := "pending"
  a_faction : Option String := none
  b_faction : Option String := none
deriving DecidableEq

/-- The persistent store visible to the engine: all signup rows and all
pairing rows. -/
structure DB where
  signups : List Signup
  pairings : List Pairing
deriving DecidableEq

/-! String manipulation is written over character lists by structural
recursion so that every engine run reduces inside the kernel; the Lean
String library versions recurse on byte positions instead and do not. -/

/-- Python whitespace test for str strip and split. -/
def is_space (c : Char) : Bool :=
  c = ' ' || c = '\t' || c = '\n' || c = '\r' || c = '\x0b' || c = '\x0c'

/-- The whitespace-separated words of a character list (Python str.split
with no separator): maximal non-space runs, empties dropped. -/
def words (cs : List Char) : List (List Char) :=
  (cs.foldr
    (fun c acc =>
      if is_space c then [] :: acc
      else
        match acc with
        | [] => [[c]]
        | w :: ws => (c :: w) :: ws)
    []).filter (fun w => w ≠ [])

/-- Join words with single spaces (Python " ".join). -/
def glue : List (List Char) → List Char
  | [] => []
  | [w] => w
  | w :: ws => w ++ ' ' :: glue ws

/-- Source function normalize-name: strip, collapse internal whitespace
runs, join with single spaces. -/
def normalize_name (n : String) : String :=
  String.mk (glue (words n.data))

/-- Python str.lower, on the ASCII range (the engine only compares ASCII
keywords). -/
def lower_str (s : String) : String :=
  String.mk (s.data.map Char.toLower)

/-- Drop leading whitespace of a character list. -/
def drop_space : List Char → List Char
  | [] => []
  | c :: t => if is_space c then drop_space t else c :: t

/-- Python str.strip: whitespace removed at both ends. -/
def trim_str (s : String) : String :=
  String.mk ((drop_space (drop_space s.data).reverse).reverse)

/-- Python str.split(sep) for a single-character separator: parts between
separators, empties kept. -/
def split_ch (sep : Char) (cs : List Char) : List (List Char) :=
  cs.foldr
    (fun c acc =>
      if c = sep then [] :: acc
      else
        match acc with
        | [] => [[c]]
        | w :: ws => (c :: w) :: ws)
    [[]]

/-- Python string less-than: lexicographic on code points. -/
def chars_lt : List Char → List Char → Bool
  | [], [] => false
  | [], _ :: _ => true
  | _ :: _, [] => false
  | a :: as, b :: bs => decide (a < b) || (decide (a = b) && chars_lt as bs)

/-- String comparison used by Python sorted on names and keys. -/
def str_lt (a b : String) : Bool :=
  chars_lt a.data b.data

/-- Normalized lowercase key of a player name, as used for deduplication and
the history index. -/
def norm_key (n : String) : String :=
  lower_str (normalize_name n)

/-- Value of a nonempty all-digit character list, none otherwise. -/
def digits_val (cs : List Char) : Option Nat :=
  if cs = [] then none
  else if cs.all (fun c => c.isDigit) then
    some (cs.foldl (fun a c => 10 * a + (c.toNat - 48)) 0)
  else none

/-- Python int(s) on a string: optional surrounding whitespace, optional
sign, decimal digits. -/
def parse_int_py (s : String) : Option Int :=
  match (trim_str s).data with
  | [] => none
  | c :: rest =>
    if c = '-' then (digits_val rest).map (fun n => -(n : Int))
    else if c = '+' then (digits_val rest).map (fun n => (n : Int))
    else (digits_val (c :: rest)).map (fun n => (n : Int))

/-- Gregorian leap year test. -/
def is_leap (y : Nat) : Bool :=
  (y % 4 = 0 && y % 100 ≠ 0) || y % 400 = 0

/-- Cumulative day count before month m in a non-leap year (1-based). -/
def days_before_month (m : Nat) : Nat :=
  match m with
  | 1 => 0 | 2 => 31 | 3 => 59 | 4 => 90 | 5 => 120 | 6 => 151
  | 7 => 181 | 8 => 212 | 9 => 243 | 10 => 273 | 11 => 304 | _ => 334

/-- Days in month m of year y. -/
def days_in_month (y m : Nat) : Nat :=
  if m = 2 then (if is_leap y then 29 else 28)
  else if m = 4 || m = 6 || m = 9 || m = 11 then 30
  else 31

/-- Day number of a proleptic Gregorian date (rata die): difference of two
day numbers is the day difference the source computes on datetime.date
values. -/
def rata_die (y m d : Nat) : Nat :=
  365 * (y - 1) + (y - 1) / 4 - (y - 1) / 100 + (y - 1) / 400 +
    days_before_month m + (if 2 < m && is_leap y then 1 else 0) + d

/-- Source function parse-week-id: strptime of a stripped "DD/MM/YYYY"
string (day and month of one or two digits, year of exactly four digits as
the %Y pattern demands, validated as a real calendar date), returned as a
day number; none models the raised exception. -/
def parse_week_id (week_str : String) : Option Nat :=
  match split_ch '/' (trim_str week_str).data with
  | [ds, ms, ys] =>
    if ds.length ≤ 2 && ms.length ≤ 2 && ys.length = 4 then
      match digits_val ds, digits_val ms, digits_val ys with
      | some d, some m, some y =>
        if 1 ≤ y && 1 ≤ m && m ≤ 12 && 1 ≤ d && d ≤ days_in_month y m then
          some (rata_die y m d)
        else none
      | _, _, _ => none
    else none
  | _ => none

/-- Primary-key lookup s.get(Signup, i): the stored row with that id. -/
def find_signup (db : DB) (i : Nat) : Option Signup :=
  db.signups.find? (fun su => su.id = i)

/-- Python sorted([x, y]) of two strings, as an ordered pair. -/
def sort_pair (x y : String) : String × String :=
  if str_lt y x then (y, x) else (x, y)

/-- The contribution of one stored pairing record to the recent-pairs set:
the normalized name pair, when the record is non-BYE, its week parses, it
lies within the window, both signups resolve and the names differ. -/
def prev_pair_of (db : DB) (current_dt : Nat) (max_weeks : Nat)
    (pr : Pairing) : Option (String × String) :=
  match pr.b_signup_id with
  | none => none
  | some bid =>
    match parse_week_id pr.week with
    | none => none
    | some pr_week_dt =>
      if ((current_dt : Int) - (pr_week_dt : Int)).natAbs / 7 ≤ max_weeks then
        match find_signup db pr.a_signup_id, find_signup db bid with
        | some a, some b =>
          let na := norm_key a.player_name
          let nb := norm_key b.player_name
          if na = nb then none else some (sort_pair na nb)
        | _, _ => none
      else none

/-- Source function previous-pairs-recent: unordered normalized-name pairs
who played each other (non-BYE) within max_weeks weeks of current_week for
the given system.  The Python set is modelled as the list of added pairs,
observed only through membership. -/
def previous_pairs_recent (system : String) (current_week : String)
    (max_weeks : Nat) (db : DB) : List (String × String) :=
  match parse_week_id current_week with
  | none => []
  | some current_dt =>
    (db.pairings.filter (fun pr => pr.system == system)).filterMap
      (prev_pair_of db current_dt max_weeks)

/-- Substring test (Python operator in on strings), over character lists. -/
def sub_str : List Char → List Char → Bool
  | needle, [] => needle.isEmpty
  | needle, c :: t => needle.isPrefixOf (c :: t) || sub_str needle t

/-- Experience weight of the source build-match-preference: first match in
insertion order of the map new 0, some 1, veteran 2, experienced 2 as a
substring of the stripped lowered text, defaulting to 1. -/
def exp_weight (experience : Option String) : Int :=
  let e := lower_str (trim_str (experience.getD ""))
  if sub_str "new".data e.data then 0
  else if sub_str "some".data e.data then 1
  else if sub_str "veteran".data e.data then 2
  else if sub_str "experienced".data e.data then 2
  else 1

/-- Points bucket int(round(pts / 250.0)) with Python bankers rounding
(round half to even); exact for realistic point values. -/
def pts_bucket (pts : Int) : Int :=
  let q := pts.fdiv 250
  let r := pts.emod 250
  if r < 125 then q
  else if 125 < r then q + 1
  else if q % 2 = 0 then q else q + 1

/-- Source function build-match-preference: the (vibe weight, experience
weight, points bucket) heuristic tuple. -/
def build_match_preference (su : Signup) : Int × Int × Int :=
  let vibe_w : Int :=
    if "casual".data.isPrefixOf (lower_str (su.vibe.getD "")).data then 0 else 1
  let exp_w := exp_weight su.experience
  let pb := pts_bucket (su.points.getD 0)
  (vibe_w, exp_w, pb)

/-- The matcher candidate (dataclass MatcherSignup of the source). -/
structure MatcherSignup where
  row : Signup
  key : String
  preference : Int × Int × Int
deriving DecidableEq

/-- Intro-seeker test of the source: the row has a vibe and its lowering is
exactly "intro". -/
def is_intro_seeker (m : MatcherSignup) : Bool :=
  match m.row.vibe with
  | none => false
  | some v => v ≠ "" && lower_str v = "intro"

/-- Lexicographic strict order on pairs of naturals (Python tuple less
than). -/
def tup_lt2 (a b : Nat × Nat) : Bool :=
  decide (a.1 < b.1) || (decide (a.1 = b.1) && decide (a.2 < b.2))

/-- Lexicographic strict order on triples of naturals. -/
def tup_lt3 (a b : Nat × Nat × Nat) : Bool :=
  decide (a.1 < b.1) || (decide (a.1 = b.1) && tup_lt2 a.2 b.2)

/-- The 6-component distance tuple of the general pass, in source order:
(mirror, ETA bucket, scenario, vibe, experience, points bucket). -/
abbrev Dist6 := Nat × Nat × Nat × Nat × Nat × Nat

/-- Lexicographic strict order on 4-tuples of naturals. -/
def tup_lt4 (a b : Nat × Nat × Nat × Nat) : Bool :=
  decide (a.1 < b.1) || (decide (a.1 = b.1) && tup_lt3 a.2 b.2)

/-- Lexicographic strict order on 5-tuples of naturals. -/
def tup_lt5 (a b : Nat × Nat × Nat × Nat × Nat) : Bool :=
  decide (a.1 < b.1) || (decide (a.1 = b.1) && tup_lt4 a.2 b.2)

/-- Lexicographic strict order on 6-tuples of naturals. -/
def tup_lt6 (a b : Dist6) : Bool :=
  decide (a.1 < b.1) || (decide (a.1 = b.1) && tup_lt5 a.2 b.2)

/-- The early-exit test of the general pass and of its fallback scan.  The
source writes dist == (0,0,0) where dist is the 6-component tuple; Python
equality of tuples of different lengths is always False, so the test never
succeeds. -/
def dist6_eq_zero3 (_d : Dist6) : Bool :=
  false

/-- The pairing record as constructed by the engine at its three emission
sites: status pending, faction snapshots taken from the rows, b-side none
for a BYE. -/
def mk_pairing (week system : String) (a : MatcherSignup)
    (b : Option MatcherSignup) : Pairing :=
  { week := week, system := system,
    a_signup_id := a.row.id,
    b_signup_id := b.map (fun m => m.row.id),
    status := "pending",
    a_faction := a.row.faction,
    b_faction := match b with | none => none | some m => m.row.faction }

/-- Inner scan of the intro pass over the leaders, tracking the best
3-component distance; stops at a perfect (0,0,0) distance. -/
def intro_scan (seeker : MatcherSignup) (used : List String) :
    List MatcherSignup → Nat × Nat × Nat → Option MatcherSignup → Option MatcherSignup
  | [], _, best => best
  | lead :: rest, best_dist, best =>
    if lead.key ∈ used ∨ lead.key = seeker.key then
      intro_scan seeker used rest best_dist best
    else
      let dv := (seeker.preference.1 - lead.preference.1).natAbs
      let de := (seeker.preference.2.1 - lead.preference.2.1).natAbs
      let dp := (seeker.preference.2.2 - lead.preference.2.2).natAbs
      let dist := (dv, de, dp)
      if tup_lt3 dist best_dist then
        if dist = (0, 0, 0) then some lead
        else intro_scan seeker used rest dist (some lead)
      else intro_scan seeker used rest best_dist best

/-- Seeker loop of the intro pass: pairs each not-yet-used seeker with its
best available leader, returning the emitted pairings and the final set of
used keys. -/
def intro_loop (week system : String) (leaders : List MatcherSignup) :
    List MatcherSignup → List String → List Pairing × List String
  | [], used => ([], used)
  | seeker :: rest, used =>
    if seeker.key ∈ used then intro_loop week system leaders rest used
    else
      match intro_scan seeker used leaders (99, 99, 99) none with
      | none => intro_loop week system leaders rest used
      | some best =>
        let next := intro_loop week system leaders rest (best.key :: seeker.key :: used)
        (mk_pairing week system seeker (some best) :: next.1, next.2)

/-- The intro priority pass of the source (guarded by the system being one
of the two supported ones): partitions the pool into seekers and demo
leaders and runs the seeker loop. -/
def intro_pass (week system : String) (cands : List MatcherSignup) :
    List Pairing × List String :=
  if system = "TOW" ∨ system = "Horus Heresy" then
    intro_loop week system (cands.filter (fun m => m.row.can_demo))
      (cands.filter is_intro_seeker) []
  else ([], [])

/-- Source helper eta-minutes: parse an "HH:MM" arrival time to minutes;
none on a missing or malformed value. -/
def eta_minutes (su : Signup) : Option Int :=
  match su.eta with
  | none => none
  | some e =>
    if e = "" then none
    else
      match split_ch ':' (trim_str e).data with
      | [hh, mm] =>
        match parse_int_py (String.mk hh), parse_int_py (String.mk mm) with
        | some h, some m => some (h * 60 + m)
        | _, _ => none
      | _ => none

/-- Source helper eta-bucket-diff: bucketed ETA gap, neutral 2 when either
side is unknown. -/
def eta_bucket_diff (a b : Signup) : Nat :=
  match eta_minutes a, eta_minutes b with
  | some am, some bm =>
    let d := (am - bm).natAbs
    if d ≤ 15 then 0 else if d ≤ 30 then 1 else if d ≤ 60 then 2 else 3
  | _, _ => 2

/-- Source helper scenario-diff-tow: scenario mismatch penalty, only for the
TOW system. -/
def scenario_diff_tow (a b : Signup) (system_name : String) : Nat :=
  if system_name ≠ "TOW" then 0
  else
    let sa := trim_str (a.scenario.getD "")
    let sb := trim_str (b.scenario.getD "")
    if sa = "" ∨ sb = "" then 1 else if sa = sb then 0 else 1

/-- Source helper mirror-flag: 1 when both factions are nonempty and equal
after strip and lower. -/
def mirror_flag (a b : Signup) : Nat :=
  let fa := lower_str (trim_str (a.faction.getD ""))
  let fb := lower_str (trim_str (b.faction.getD ""))
  if fa ≠ "" ∧ fb ≠ "" ∧ fa = fb then 1 else 0

/-- Source helper vibe-distance-override: Either matches anything except
Intro; Intro keeps the base distance. -/
def vibe_distance_override (a b : Signup) (base_dv : Nat) : Nat :=
  let av := lower_str (trim_str (a.vibe.getD ""))
  let bv := lower_str (trim_str (b.vibe.getD ""))
  if av = "intro" ∨ bv = "intro" then base_dv
  else if av = "either" ∨ bv = "either" then 0
  else if av = bv then 0 else 1

/-- The full 6-component distance of the general pass between candidate ms
and a scanned candidate, in source component order. -/
def dist6 (system : String) (ms other : MatcherSignup) : Dist6 :=
  let dv_base := (ms.preference.1 - other.preference.1).natAbs
  let dv := vibe_distance_override ms.row other.row dv_base
  let de := (ms.preference.2.1 - other.preference.2.1).natAbs
  let dp := (ms.preference.2.2 - other.preference.2.2).natAbs
  let eta_b := eta_bucket_diff ms.row other.row
  let scen_d := scenario_diff_tow ms.row other.row system
  let mir := mirror_flag ms.row other.row
  (mir, eta_b, scen_d, dv, de, dp)

/-- History test has-played of the source: membership of the sorted pair in
the recent-pairs set. -/
def has_played (seen : List (String × String)) (x y : String) : Bool :=
  decide (sort_pair x y ∈ seen)

/-- Initial best distance of both general-pass scans. -/
def d99 : Dist6 := (99, 99, 99, 99, 99, 99)

/-- The inner best-match scan of the general pass over the candidates after
position i, skipping used keys and recent rematches.  Besides the chosen
partner it returns the list of candidates for which a distance tuple was
computed, to reason about the early-exit behaviour; the early-exit branch
itself is dead because dist6-eq-zero3 is always false. -/
def scan_best (system : String) (seen : List (String × String))
    (ms : MatcherSignup) (used : List String) :
    List MatcherSignup → Dist6 → Option MatcherSignup →
      Option MatcherSignup × List MatcherSignup
  | [], _, best => (best, [])
  | other :: rest, best_dist, best =>
    if other.key ∈ used then scan_best system seen ms used rest best_dist best
    else if has_played seen ms.key other.key then
      scan_best system seen ms used rest best_dist best
    else if tup_lt6 (dist6 system ms other) best_dist then
      if dist6_eq_zero3 (dist6 system ms other) then (some other, [other])
      else
        ((scan_best system seen ms used rest (dist6 system ms other) (some other)).1,
          other :: (scan_best system seen ms used rest (dist6 system ms other) (some other)).2)
    else
      ((scan_best system seen ms used rest best_dist best).1,
        other :: (scan_best system seen ms used rest best_dist best).2)

/-- The best-j value of the general pass for one candidate: the result of
the first scan or, when it found nothing and repeats are permitted, of the
fallback scan.  The fallback loop of the source (lines 1022-1041) is
textually separate but identical in body to the first, including the skip
of recent rematches, so the same scan is called twice. -/
def general_best (system : String) (allow_repeats : Bool)
    (seen : List (String × String)) (ms : MatcherSignup)
    (rest : List MatcherSignup) (used : List String) : Option MatcherSignup :=
  match (scan_best system seen ms used rest d99 none).1 with
  | some o => some o
  | none =>
    if allow_repeats then (scan_best system seen ms used rest d99 none).1
    else none

/-- The greedy general pass (source lines 991-1062).  For each unused
candidate in order it scans the remaining candidates for the best partner;
a candidate with no partner is emitted as a BYE. -/
def general_pass (week system : String) (allow_repeats : Bool)
    (seen : List (String × String)) :
    List MatcherSignup → List String → List Pairing
  | [], _ => []
  | ms :: rest, used =>
    if ms.key ∈ used then general_pass week system allow_repeats seen rest used
    else
      match general_best system allow_repeats seen ms rest used with
      | none =>
        mk_pairing week system ms none ::
          general_pass week system allow_repeats seen rest (ms.key :: used)
      | some other =>
        mk_pairing week system ms (some other) ::
          general_pass week system allow_repeats seen rest (other.key :: ms.key :: used)

/-- One step of the latest-wins deduplication dictionary: replace the entry
of the key when the new row is strictly more recent (keeping the position of
the entry, as a Python dict update does), insert at the end otherwise. -/
def upsert_latest (acc : List (String × Signup)) (k : String) (r : Signup) :
    List (String × Signup) :=
  match acc with
  | [] => [(k, r)]
  | (k0, r0) :: t =>
    if k0 = k then
      (if r0.created_at < r.created_at then (k, r) :: t else (k0, r0) :: t)
    else (k0, r0) :: upsert_latest t k r

/-- Latest signup per normalized lowercase player name, in first-occurrence
order (the Python dict latest-by-name). -/
def dedup_latest (rows : List Signup) : List (String × Signup) :=
  rows.foldl (fun acc r => upsert_latest acc (norm_key r.player_name) r) []

/-- The order-by on created_at of the signup query. -/
def by_created (a b : Signup) : Prop := a.created_at ≤ b.created_at

instance : DecidableRel by_created := fun a b => Nat.decLe a.created_at b.created_at

instance : IsTotal Signup by_created := ⟨fun a b => Nat.le_total a.created_at b.created_at⟩

instance : IsTrans Signup by_created := ⟨fun _ _ _ => Nat.le_trans⟩

/-- The signup query of the engine: rows of the week and system, ordered by
created_at (stable sort). -/
def sort_rows (rows : List Signup) : List Signup :=
  List.insertionSort by_created rows

/-- Strict lexicographic order on preference triples (Python tuple less
than on int triples). -/
def pref_lt (a b : Int × Int × Int) : Bool :=
  decide (a.1 < b.1) ||
    (decide (a.1 = b.1) &&
      (decide (a.2.1 < b.2.1) ||
        (decide (a.2.1 = b.2.1) && decide (a.2.2 < b.2.2))))

/-- The sort key of the general pass: (preference, key), lexicographically. -/
def cand_le (a b : MatcherSignup) : Prop :=
  pref_lt a.preference b.preference = true ∨
    (a.preference = b.preference ∧ str_lt b.key a.key = false)

instance : DecidableRel cand_le := fun a b => by
  unfold cand_le; infer_instance

/-- The candidates.sort of the source. -/
def sort_candidates (l : List MatcherSignup) : List MatcherSignup :=
  List.insertionSort cand_le l

/-- The parity-bias step of the source (lines 921-928): when T and T
grouping is allowed, the system is TOW, the pool is odd and at least three
candidates opted in, move the last opted-in candidate of the sorted pool to
the end. -/
def parity_bias (allow_tnt : Bool) (system : String)
    (cands : List MatcherSignup) : List MatcherSignup :=
  if allow_tnt ∧ system = "TOW" ∧ cands.length % 2 = 1 then
    let tnt_pool := cands.filter (fun m => m.row.tnt_ok)
    if 3 ≤ tnt_pool.length then
      match tnt_pool.getLast? with
      | some chosen => cands.filter (fun m => m.key ≠ chosen.key) ++ [chosen]
      | none => cands
    else cands
  else cands

/-- The parity-bias activation condition of the source. -/
def parity_bias_active (allow_tnt : Bool) (system : String)
    (cands : List MatcherSignup) : Prop :=
  allow_tnt = true ∧ system = "TOW" ∧ cands.length % 2 = 1 ∧
    3 ≤ (cands.filter (fun m => m.row.tnt_ok)).length

instance (allow_tnt : Bool) (system : String) (cands : List MatcherSignup) :
    Decidable (parity_bias_active allow_tnt system cands) := by
  unfold parity_bias_active; infer_instance

/-- The deduplicated candidate pool of a week and system: query, stable sort
by created_at, latest-wins dedup, preference computation. -/
def candidates_for (week system : String) (db : DB) : List MatcherSignup :=
  let rows := sort_rows (db.signups.filter (fun r => r.week == week && r.system == system))
  (dedup_latest rows).map
    (fun kv => { row := kv.2, key := kv.1, preference := build_match_preference kv.2 })

/-- The candidate pool after the intro pass, sorted by (preference, key):
the input of the parity-bias step. -/
def post_intro_pool (week system : String) (db : DB) : List MatcherSignup :=
  let cands := candidates_for week system db
  let used_intro := (intro_pass week system cands).2
  sort_candidates (cands.filter (fun m => !(used_intro.contains m.key)))

/-- Source function generate-pairings-for-week: the full engine.  The source
defaults both flags to true. -/
def generate_pairings_for_week (week system : String)
    (allow_repeats_when_needed : Bool) (allow_tnt : Bool) (db : DB) : List Pairing :=
  let cands := candidates_for week system db
  if cands.isEmpty then []
  else
    let intro := intro_pass week system cands
    let cands3 := parity_bias allow_tnt system (post_intro_pool week system db)
    let seen := previous_pairs_recent system week 2 db
    intro.1 ++ general_pass week system allow_repeats_when_needed seen cands3 []

/-! Concrete data used to exercise the engine in witnesses and
counterexamples. -/

/-- A casual newcomer at 2000 points. -/
def ex_suA : Signup :=
  { id := 1, created_at := 1, week := "01/01/2025", system := "TOW",
    player_name := "Alice", vibe := some "Casual", experience := some "New",
    points := some 2000 }

/-- A second casual newcomer at 2000 points. -/
def ex_suB : Signup :=
  { id := 2, created_at := 2, week := "01/01/2025", system := "TOW",
    player_name := "Bob", vibe := some "Casual", experience := some "New",
    points := some 2000 }

/-- A competitive veteran at 4000 points. -/
def ex_suC : Signup :=
  { id := 3, created_at := 3, week := "01/01/2025", system := "TOW",
    player_name := "Carol", vibe := some "Competitive", experience := some "Veteran",
    points := some 4000 }

/-- A signup without points. -/
def ex_suNoPts : Signup :=
  { id := 9, created_at := 9, week := "01/01/2025", system := "TOW",
    player_name := "Pat" }

/-- Three compatible candidates, no history. -/
def ex_db1 : DB := { signups := [ex_suA, ex_suB, ex_suC], pairings := [] }

/-- The same three candidates in another input order (creation timestamps
pairwise distinct). -/
def ex_db1P : DB := { signups := [ex_suB, ex_suA, ex_suC], pairings := [] }

/-- A store with pairings but no signups at all. -/
def ex_dbEmpty : DB :=
  { signups := [],
    pairings := [ { week := "25/12/2024", system := "TOW",
                    a_signup_id := 7, b_signup_id := some 8 } ] }

/-- Alice and Bob signed up and played each other one week earlier
(25/12/2024 is seven days before 01/01/2025). -/
def ex_dbH : DB :=
  { signups := [ex_suA, ex_suB],
    pairings := [ { week := "25/12/2024", system := "TOW",
                    a_signup_id := 1, b_signup_id := some 2 } ] }

/-- Alice, Bob and Carol signed up and every pair among them played one week
earlier. -/
def ex_dbH3 : DB :=
  { signups := [ex_suA, ex_suB, ex_suC],
    pairings := [ { week := "25/12/2024", system := "TOW",
                    a_signup_id := 1, b_signup_id := some 2 },
                  { week := "25/12/2024", system := "TOW",
                    a_signup_id := 1, b_signup_id := some 3 },
                  { week := "25/12/2024", system := "TOW",
                    a_signup_id := 2, b_signup_id := some 3 } ] }

/-- Intro seeker with creation timestamp tied with another seeker. -/
def ex_suS1 : Signup :=
  { id := 1, created_at := 0, week := "W", system := "TOW",
    player_name := "S One", vibe := some "Intro" }

/-- A second intro seeker with the same creation timestamp. -/
def ex_suS2 : Signup :=
  { id := 2, created_at := 0, week := "W", system := "TOW",
    player_name := "S Two", vibe := some "Intro" }

/-- A demo leader, timestamp also tied. -/
def ex_suL1 : Signup :=
  { id := 3, created_at := 0, week := "W", system := "TOW",
    player_name := "L One", vibe := some "Intro", can_demo := true }

/-- A second demo leader, timestamp also tied. -/
def ex_suL2 : Signup :=
  { id := 4, created_at := 0, week := "W", system := "TOW",
    player_name := "L Two", vibe := some "Intro", can_demo := true }

/-- The tied-timestamp pool in one input order. -/
def ex_dbP1 : DB := { signups := [ex_suS1, ex_suS2, ex_suL1, ex_suL2], pairings := [] }

/-- The same pool with the two seekers swapped in the input order. -/
def ex_dbP2 : DB := { signups := [ex_suS2, ex_suS1, ex_suL1, ex_suL2], pairings := [] }

/-- Scanning candidate for the early-exit analysis. -/
def ex_mX : MatcherSignup :=
  { row := { id := 10, created_at := 0, week := "W", system := "TOW",
             player_name := "X", vibe := some "Casual", faction := some "Orcs",
             eta := some "10:00", scenario := some "Open Battle", points := some 1000 },
    key := "x", preference := (0, 1, 4) }

/-- A perfect partner for the scanning candidate: every distance component
is zero. -/
def ex_mY : MatcherSignup :=
  { row := { id := 11, created_at := 0, week := "W", system := "TOW",
             player_name := "Y", vibe := some "Casual", faction := some "Elves",
             eta := some "10:00", scenario := some "Open Battle", points := some 1000 },
    key := "y", preference := (0, 1, 4) }

/-- A worse partner listed after the perfect one. -/
def ex_mZ : MatcherSignup :=
  { row := { id := 12, created_at := 0, week := "W", system := "TOW",
             player_name := "Z", vibe := some "Casual", faction := some "Dwarfs",
             eta := some "11:30", scenario := some "Open Battle", points := some 2000 },
    key := "z", preference := (0, 1, 8) }

/-- Three candidates opted into three-way grouping, for the parity-bias
witness. -/
def ex_mT1 : MatcherSignup :=
  { row := { id := 21, created_at := 0, week := "W", system := "TOW",
             player_name := "T One", tnt_ok := true },
    key := "t one", preference := (1, 1, 0) }

/-- Second opted-in candidate. -/
def ex_mT2 : MatcherSignup :=
  { row := { id := 22, created_at := 0, week := "W", system := "TOW",
             player_name := "T Two", tnt_ok := true },
    key := "t two", preference := (1, 1, 0) }

/-- Third opted-in candidate. -/
def ex_mT3 : MatcherSignup :=
  { row := { id := 23, created_at := 0, week := "W", system := "TOW",
             player_name := "T Three", tnt_ok := true },
    key := "t three", preference := (1, 1, 0) }

/-- The multiset of signup ids referenced by a list of pairing records, one
occurrence per occupied side. -/
def ref_ids (ps : List Pairing) : List Nat :=
  ps.flatMap (fun p => p.a_signup_id :: p.b_signup_id.toList)

/-! Theorems. -/

/-- Referenced ids of concatenated outputs. -/
theorem ref_ids_append (ps qs : List Pairing) :
    ref_ids (ps ++ qs) = ref_ids ps ++ ref_ids qs := by
  simp [ref_ids]

/-- An upserted entry is an old entry or the new binding. -/
theorem upsert_mem (k : String) (r : Signup) :
    ∀ (acc : List (String × Signup)) (kv : String × Signup),
      kv ∈ upsert_latest acc k r → kv ∈ acc ∨ kv = (k, r) := by
  intro acc
  induction acc with
  | nil =>
    intro kv h
    simp only [upsert_latest, List.mem_singleton] at h
    exact Or.inr h
  | cons kv0 t ih =>
    obtain ⟨k0, r0⟩ := kv0
    intro kv h
    simp only [upsert_latest] at h
    split_ifs at h with hk hca
    · rcases List.mem_cons.mp h with rfl | hmem
      · exact Or.inr rfl
      · exact Or.inl (List.mem_cons_of_mem _ hmem)
    · exact Or.inl h
    · rcases List.mem_cons.mp h with rfl | hmem
      · exact Or.inl (List.mem_cons_self _ _)
      · rcases ih kv hmem with h1 | h2
        · exact Or.inl (List.mem_cons_of_mem _ h1)
        · exact Or.inr h2

/-- Every dictionary entry binds the normalized key of one of the rows. -/
theorem dedup_latest_spec (rows : List Signup) :
    ∀ kv ∈ dedup_latest rows,
      kv.1 = norm_key kv.2.player_name ∧ kv.2 ∈ rows := by
  suffices h : ∀ (t : List Signup) (acc : List (String × Signup))
      (P : Signup → Prop),
      (∀ kv ∈ acc, kv.1 = norm_key kv.2.player_name ∧ P kv.2) →
      (∀ r ∈ t, P r) →
      ∀ kv ∈ t.foldl (fun acc r => upsert_latest acc (norm_key r.player_name) r) acc,
        kv.1 = norm_key kv.2.player_name ∧ P kv.2 by
    intro kv hkv
    exact h rows [] (fun r => r ∈ rows) (by simp) (fun r hr => hr) kv hkv
  intro t
  induction t with
  | nil =>
    intro acc P hacc _ kv hkv
    exact hacc kv hkv
  | cons r t ih =>
    intro acc P hacc ht kv hkv
    simp only [List.foldl_cons] at hkv
    refine ih _ P ?_ (fun x hx => ht x (List.mem_cons_of_mem _ hx)) kv hkv
    intro kv2 hkv2
    rcases upsert_mem _ _ acc kv2 hkv2 with hold | hnew
    · exact hacc kv2 hold
    · subst hnew
      exact ⟨rfl, ht r (List.mem_cons_self _ _)⟩

/-- Structure of every pool candidate: its key is the normalized name of its
row, the row is a stored signup of the queried week and system, and its
preference is computed from the row. -/
theorem candidates_for_spec (w s : String) (db : DB) :
    ∀ c ∈ candidates_for w s db,
      c.key = norm_key c.row.player_name ∧ c.row ∈ db.signups ∧
        c.preference = build_match_preference c.row := by
  intro c hc
  unfold candidates_for at hc
  rw [List.mem_map] at hc
  obtain ⟨kv, hkv, rfl⟩ := hc
  obtain ⟨hkey, hrow⟩ := dedup_latest_spec _ kv hkv
  refine ⟨hkey, ?_, rfl⟩
  have hrow2 := (List.mem_insertionSort by_created).mp hrow
  exact (List.mem_filter.mp hrow2).1

/-- With pairwise-distinct stored ids, a pool candidate is determined by its
row id. -/
theorem candidates_for_inj (w s : String) (db : DB)
    (hids : (db.signups.map (fun su => su.id)).Nodup) :
    ∀ c ∈ candidates_for w s db, ∀ d ∈ candidates_for w s db,
      c.row.id = d.row.id → c = d := by
  intro c hc d hd hid
  obtain ⟨hck, hcr, hcp⟩ := candidates_for_spec w s db c hc
  obtain ⟨hdk, hdr, hdp⟩ := candidates_for_spec w s db d hd
  have hrow : c.row = d.row := List.inj_on_of_nodup_map hids hcr hdr hid
  cases c with
  | mk crow ckey cpref =>
    cases d with
    | mk drow dkey dpref =>
      simp only at hrow hck hdk hcp hdp
      subst hrow
      simp [MatcherSignup.mk.injEq, hck, hdk, hcp, hdp]

/-- Referenced ids of an emitted pair. -/
theorem ref_ids_pair_cons (w s : String) (a b : MatcherSignup)
    (ps : List Pairing) :
    ref_ids (mk_pairing w s a (some b) :: ps) =
      a.row.id :: b.row.id :: ref_ids ps := by
  simp [ref_ids, mk_pairing]

/-- Referenced ids of an emitted BYE. -/
theorem ref_ids_bye_cons (w s : String) (a : MatcherSignup)
    (ps : List Pairing) :
    ref_ids (mk_pairing w s a none :: ps) = a.row.id :: ref_ids ps := by
  simp [ref_ids, mk_pairing]

/-- Any leader returned by the intro scan satisfies any property enjoyed by
the initial best and by every unskipped leader. -/
theorem intro_scan_some_spec (sk : MatcherSignup) (used : List String)
    (Q : MatcherSignup → Prop) :
    ∀ (leaders : List MatcherSignup) (bd : Nat × Nat × Nat)
      (b0 : Option MatcherSignup),
      (∀ x, b0 = some x → Q x) →
      (∀ x ∈ leaders, x.key ∉ used → x.key ≠ sk.key → Q x) →
      ∀ o, intro_scan sk used leaders bd b0 = some o → Q o := by
  intro leaders
  induction leaders with
  | nil =>
    intro bd b0 hb _ o ho
    exact hb o ho
  | cons ld rest ih =>
    intro bd b0 hb hl o ho
    simp only [intro_scan] at ho
    by_cases h1 : ld.key ∈ used ∨ ld.key = sk.key
    · rw [if_pos h1] at ho
      exact ih bd b0 hb (fun x hx => hl x (List.mem_cons_of_mem _ hx)) o ho
    · rw [if_neg h1] at ho
      push_neg at h1
      obtain ⟨h1u, h1k⟩ := h1
      have hq : Q ld := hl ld (List.mem_cons_self _ _) h1u h1k
      split_ifs at ho with h2 h3
      · exact (Option.some.inj ho) ▸ hq
      · exact ih _ (some ld) (fun x hx => (Option.some.inj hx) ▸ hq)
          (fun x hx => hl x (List.mem_cons_of_mem _ hx)) o ho
      · exact ih bd b0 hb (fun x hx => hl x (List.mem_cons_of_mem _ hx)) o ho

/-- The used set of the intro loop only grows. -/
theorem intro_loop_used_mono (w s : String) (leaders : List MatcherSignup) :
    ∀ (seekers : List MatcherSignup) (used : List String) (x : String),
      x ∈ used → x ∈ (intro_loop w s leaders seekers used).2 := by
  intro seekers
  induction seekers with
  | nil => intro used x hx; exact hx
  | cons sk rest ih =>
    intro used x hx
    by_cases hu : sk.key ∈ used
    · rw [intro_loop, if_pos hu]
      exact ih used x hx
    · cases hscan : intro_scan sk used leaders (99, 99, 99) none with
      | none =>
        rw [intro_loop, if_neg hu, hscan]
        exact ih used x hx
      | some best =>
        have heq2 : (intro_loop w s leaders (sk :: rest) used).2 =
            (intro_loop w s leaders rest (best.key :: sk.key :: used)).2 := by
          rw [intro_loop, if_neg hu, hscan]
        rw [heq2]
        exact ih _ x (List.mem_cons_of_mem _ (List.mem_cons_of_mem _ hx))

/-- Id invariant of the intro loop: referenced ids are pairwise distinct and
each belongs to a seeker or leader that was free on entry and is used on
exit. -/
theorem intro_loop_ids (w s : String) (leaders : List MatcherSignup) :
    ∀ (seekers : List MatcherSignup) (used : List String),
      (∀ c d : MatcherSignup, c ∈ seekers ∨ c ∈ leaders →
        d ∈ seekers ∨ d ∈ leaders → c.row.id = d.row.id → c.key = d.key) →
      (ref_ids (intro_loop w s leaders seekers used).1).Nodup ∧
      (∀ i ∈ ref_ids (intro_loop w s leaders seekers used).1,
        ∃ c, (c ∈ seekers ∨ c ∈ leaders) ∧ c.key ∉ used ∧
          c.key ∈ (intro_loop w s leaders seekers used).2 ∧ c.row.id = i) := by
  intro seekers
  induction seekers with
  | nil =>
    intro used hinj
    constructor
    · simp [intro_loop, ref_ids]
    · intro i hi
      simp [intro_loop, ref_ids] at hi
  | cons sk rest ih =>
    intro used hinj
    have hinj' : ∀ c d : MatcherSignup, c ∈ rest ∨ c ∈ leaders →
        d ∈ rest ∨ d ∈ leaders → c.row.id = d.row.id → c.key = d.key :=
      fun c d hc hd =>
        hinj c d (hc.imp (List.mem_cons_of_mem _) id) (hd.imp (List.mem_cons_of_mem _) id)
    by_cases hu : sk.key ∈ used
    · have heq : intro_loop w s leaders (sk :: rest) used =
          intro_loop w s leaders rest used := by
        rw [intro_loop, if_pos hu]
      rw [heq]
      obtain ⟨h1, h2⟩ := ih used hinj'
      refine ⟨h1, fun i hi => ?_⟩
      obtain ⟨c, hc, hcu, hcused, hcid⟩ := h2 i hi
      exact ⟨c, hc.imp (List.mem_cons_of_mem _) id, hcu, hcused, hcid⟩
    · cases hscan : intro_scan sk used leaders (99, 99, 99) none with
      | none =>
        have heq : intro_loop w s leaders (sk :: rest) used =
            intro_loop w s leaders rest used := by
          rw [intro_loop, if_neg hu, hscan]
        rw [heq]
        obtain ⟨h1, h2⟩ := ih used hinj'
        refine ⟨h1, fun i hi => ?_⟩
        obtain ⟨c, hc, hcu, hcused, hcid⟩ := h2 i hi
        exact ⟨c, hc.imp (List.mem_cons_of_mem _) id, hcu, hcused, hcid⟩
      | some best =>
        have hbest : best ∈ leaders ∧ best.key ∉ used ∧ best.key ≠ sk.key := by
          refine intro_scan_some_spec sk used
            (fun x => x ∈ leaders ∧ x.key ∉ used ∧ x.key ≠ sk.key)
            leaders (99, 99, 99) none ?_ ?_ best hscan
          · intro x hx; cases hx
          · intro x hx h1 h2; exact ⟨hx, h1, h2⟩
        obtain ⟨hbl, hbu, hbk⟩ := hbest
        have heq1 : (intro_loop w s leaders (sk :: rest) used).1 =
            mk_pairing w s sk (some best) ::
              (intro_loop w s leaders rest (best.key :: sk.key :: used)).1 := by
          rw [intro_loop, if_neg hu, hscan]
        have heq2 : (intro_loop w s leaders (sk :: rest) used).2 =
            (intro_loop w s leaders rest (best.key :: sk.key :: used)).2 := by
          rw [intro_loop, if_neg hu, hscan]
        obtain ⟨hnodup, hspec⟩ := ih (best.key :: sk.key :: used) hinj'
        have hskmem : sk.key ∈ (intro_loop w s leaders rest
            (best.key :: sk.key :: used)).2 :=
          intro_loop_used_mono w s leaders rest _ sk.key
            (List.mem_cons_of_mem _ (List.mem_cons_self _ _))
        have hbmem : best.key ∈ (intro_loop w s leaders rest
            (best.key :: sk.key :: used)).2 :=
          intro_loop_used_mono w s leaders rest _ best.key (List.mem_cons_self _ _)
        have hskid : sk.row.id ∉ ref_ids (intro_loop w s leaders rest
            (best.key :: sk.key :: used)).1 := by
          intro hin
          obtain ⟨c, hc, hcu, _, hcid⟩ := hspec _ hin
          have : c.key = sk.key :=
            hinj c sk (hc.imp (List.mem_cons_of_mem _) id)
              (Or.inl (List.mem_cons_self _ _)) hcid
          exact hcu (this ▸ List.mem_cons_of_mem _ (List.mem_cons_self _ _))
        have hbid : best.row.id ∉ ref_ids (intro_loop w s leaders rest
            (best.key :: sk.key :: used)).1 := by
          intro hin
          obtain ⟨c, hc, hcu, _, hcid⟩ := hspec _ hin
          have : c.key = best.key :=
            hinj c best (hc.imp (List.mem_cons_of_mem _) id) (Or.inr hbl) hcid
          exact hcu (this ▸ List.mem_cons_self _ _)
        have hskbid : sk.row.id ≠ best.row.id := by
          intro hid
          exact hbk (hinj best sk (Or.inr hbl) (Or.inl (List.mem_cons_self _ _))
            hid.symm)
        constructor
        · rw [heq1, ref_ids_pair_cons, List.nodup_cons, List.nodup_cons]
          refine ⟨?_, hbid, hnodup⟩
          intro hin
          rcases List.mem_cons.mp hin with hid | hin2
          · exact hskbid hid
          · exact hskid hin2
        · intro i hi
          rw [heq1, ref_ids_pair_cons] at hi
          rw [heq2]
          rcases List.mem_cons.mp hi with rfl | hi2
          · exact ⟨sk, Or.inl (List.mem_cons_self _ _), hu, hskmem, rfl⟩
          · rcases List.mem_cons.mp hi2 with rfl | hi3
            · exact ⟨best, Or.inr hbl, hbu, hbmem, rfl⟩
            · obtain ⟨c, hc, hcu, hcused, hcid⟩ := hspec _ hi3
              refine ⟨c, hc.imp (List.mem_cons_of_mem _) id, ?_, hcused, hcid⟩
              intro hcu2
              exact hcu (List.mem_cons_of_mem _ (List.mem_cons_of_mem _ hcu2))

/-- Membership in the parity-biased list implies membership in its input. -/
theorem mem_parity_bias (a : Bool) (s : String) (l : List MatcherSignup)
    (x : MatcherSignup) (h : x ∈ parity_bias a s l) : x ∈ l := by
  simp only [parity_bias] at h
  split_ifs at h
  · cases hlast : (l.filter (fun m => m.row.tnt_ok)).getLast? with
    | none =>
      rw [hlast] at h
      exact h
    | some chosen =>
      rw [hlast] at h
      rcases List.mem_append.mp h with h1 | h2
      · exact List.mem_of_mem_filter h1
      · rw [List.mem_singleton] at h2
        subst h2
        have hne : l.filter (fun m => m.row.tnt_ok) ≠ [] := by
          intro hnil
          rw [hnil] at hlast
          cases hlast
        have := List.getLast?_eq_getLast_of_ne_nil hne
        rw [hlast] at this
        have hx : x = (l.filter (fun m => m.row.tnt_ok)).getLast hne :=
          Option.some.inj this
        rw [hx]
        exact List.mem_of_mem_filter (List.getLast_mem hne)
  · exact h
  · exact h

/-- Membership in the post-intro pool implies pool membership with a key
outside the intro-used set. -/
theorem mem_post_intro_pool (w s : String) (db : DB) (x : MatcherSignup)
    (h : x ∈ post_intro_pool w s db) :
    x ∈ candidates_for w s db ∧
      ((intro_pass w s (candidates_for w s db)).2.contains x.key) = false := by
  unfold post_intro_pool at h
  have h2 := (List.mem_insertionSort cand_le).mp h
  have h3 := List.mem_filter.mp h2
  refine ⟨h3.1, ?_⟩
  have := h3.2
  simpa using this

/-- C10: a signup with absent points is treated as points 0 and gets the
extreme low bucket 0 as the third preference component. -/
theorem C10_missing_points_bucket_zero (su : Signup) (h : su.points = none) :
    (build_match_preference su).2.2 = 0 := by
  simp only [build_match_preference, h, pts_bucket]
  decide

/-- Witness for C10 at a concrete signup without points. -/
theorem C10_missing_points_bucket_zero_witness :
    ex_suNoPts.points = none ∧ (build_match_preference ex_suNoPts).2.2 = 0 :=
  ⟨rfl, C10_missing_points_bucket_zero ex_suNoPts rfl⟩

/-- C7: with no signups stored for the week and system, the engine returns
the empty list (and, being total, raises nothing). -/
theorem C7_empty_input (week system : String) (ar tnt : Bool) (db : DB)
    (h : db.signups.filter (fun r => r.week == week && r.system == system) = []) :
    generate_pairings_for_week week system ar tnt db = [] := by
  simp [generate_pairings_for_week, candidates_for, sort_rows, h, dedup_latest]

/-- Witness for C7: a store holding pairings but no signups. -/
theorem C7_empty_input_witness :
    ex_dbEmpty.signups.filter (fun r => r.week == "01/01/2025" && r.system == "TOW") = [] ∧
      generate_pairings_for_week "01/01/2025" "TOW" true true ex_dbEmpty = [] :=
  ⟨rfl, C7_empty_input "01/01/2025" "TOW" true true ex_dbEmpty rfl⟩

/-- C1 (failing input evaluated): Alice and Bob played each other one week
ago and are each other's only possible partner; with
allow-repeats-when-needed true the claim expects them to be paired by the
second scan, but the second scan of the source also skips recent rematches,
so both are emitted as BYEs. -/
theorem C1_repeat_fallback_failing_input :
    previous_pairs_recent "TOW" "01/01/2025" 2 ex_dbH = [("alice", "bob")] ∧
      (generate_pairings_for_week "01/01/2025" "TOW" true true ex_dbH).map
          (fun p => (p.a_signup_id, p.b_signup_id)) = [(1, none), (2, none)] := by
  constructor
  · decide
  · decide

/-- C4 (failing input evaluated): the scanning candidate meets a perfect
partner first (all six distance components zero), yet the scan still
examines the following candidate, because the early-exit compares the
6-tuple with (0,0,0) and never fires. -/
theorem C4_early_exit_dead :
    dist6 "TOW" ex_mX ex_mY = (0, 0, 0, 0, 0, 0) ∧
      (scan_best "TOW" [] ex_mX [] [ex_mY, ex_mZ] d99 none).2 = [ex_mY, ex_mZ] ∧
      (scan_best "TOW" [] ex_mX [] [ex_mY, ex_mZ] d99 none).1 = some ex_mY := by
  refine ⟨by decide, by decide, by decide⟩

/-- C3 counterexample: an odd (three-element) pool whose pairs are all in
the recent history; the engine emits three BYEs, not exactly one. -/
theorem C3_odd_pool_counterexample :
    (post_intro_pool "01/01/2025" "TOW" ex_dbH3).length % 2 = 1 ∧
      ((generate_pairings_for_week "01/01/2025" "TOW" true true ex_dbH3).countP
        (fun p => p.b_signup_id.isNone)) = 3 := by
  constructor
  · decide
  · decide

/-- Every pairing emitted by the intro seeker loop is a constructor
application of the emission helper for the given week and system. -/
theorem intro_loop_shape (w s : String) (leaders : List MatcherSignup) :
    ∀ (seekers : List MatcherSignup) (used : List String) (p : Pairing),
      p ∈ (intro_loop w s leaders seekers used).1 →
      ∃ a b, p = mk_pairing w s a (some b) := by
  intro seekers
  induction seekers with
  | nil =>
    intro used p h
    simp [intro_loop] at h
  | cons sk rest ih =>
    intro used p h
    rw [intro_loop] at h
    by_cases hu : sk.key ∈ used
    · rw [if_pos hu] at h
      exact ih _ p h
    · rw [if_neg hu] at h
      cases hscan : intro_scan sk used leaders (99, 99, 99) none with
      | none =>
        rw [hscan] at h
        exact ih _ p h
      | some best =>
        rw [hscan] at h
        simp only [List.mem_cons] at h
        rcases h with rfl | h
        · exact ⟨sk, best, rfl⟩
        · exact ih _ p h

/-- Every pairing emitted by the general pass is a constructor application
of the emission helper for the given week and system. -/
theorem general_pass_shape (w s : String) (ar : Bool)
    (seen : List (String × String)) :
    ∀ (l : List MatcherSignup) (used : List String) (p : Pairing),
      p ∈ general_pass w s ar seen l used →
      ∃ a b, p = mk_pairing w s a b := by
  intro l
  induction l with
  | nil =>
    intro used p h
    simp [general_pass] at h
  | cons ms rest ih =>
    intro used p h
    rw [general_pass] at h
    by_cases hu : ms.key ∈ used
    · rw [if_pos hu] at h
      exact ih _ p h
    · rw [if_neg hu] at h
      cases hbj : general_best s ar seen ms rest used with
      | none =>
        rw [hbj] at h
        simp only [List.mem_cons] at h
        rcases h with rfl | h
        · exact ⟨ms, none, rfl⟩
        · exact ih _ p h
      | some other =>
        rw [hbj] at h
        simp only [List.mem_cons] at h
        rcases h with rfl | h
        · exact ⟨ms, some other, rfl⟩
        · exact ih _ p h

/-- Every pairing emitted by the intro pass is a constructor application of
the emission helper. -/
theorem intro_pass_shape (w s : String) (cands : List MatcherSignup)
    (p : Pairing) (h : p ∈ (intro_pass w s cands).1) :
    ∃ a b, p = mk_pairing w s a (some b) := by
  unfold intro_pass at h
  split_ifs at h
  · exact intro_loop_shape w s _ _ _ p h
  · simp at h

/-- C9: every emitted record has status pending, the argument week and
system, and a BYE record (b-side id absent) also has an absent b-side
faction. -/
theorem C9_emitted_fields (week system : String) (ar tnt : Bool) (db : DB)
    (p : Pairing) (h : p ∈ generate_pairings_for_week week system ar tnt db) :
    p.status = "pending" ∧ p.week = week ∧ p.system = system ∧
      (p.b_signup_id = none → p.b_faction = none) := by
  simp only [generate_pairings_for_week] at h
  split_ifs at h with hc
  · simp at h
  · rcases List.mem_append.mp h with hin | hgen
    · obtain ⟨a, b, rfl⟩ := intro_pass_shape week system _ p hin
      simp [mk_pairing]
    · obtain ⟨a, b, rfl⟩ := general_pass_shape week system ar _ _ _ p hgen
      cases b with
      | none => simp [mk_pairing]
      | some m => simp [mk_pairing]

/-- Witness for C9: the first record of the three-candidate run. -/
theorem C9_emitted_fields_witness :
    (mk_pairing "01/01/2025" "TOW"
        { row := ex_suA, key := "alice", preference := build_match_preference ex_suA }
        (some { row := ex_suB, key := "bob", preference := build_match_preference ex_suB })) ∈
      generate_pairings_for_week "01/01/2025" "TOW" true true ex_db1 ∧
    ((mk_pairing "01/01/2025" "TOW"
        { row := ex_suA, key := "alice", preference := build_match_preference ex_suA }
        (some { row := ex_suB, key := "bob", preference := build_match_preference ex_suB })).status
      = "pending") :=
  have hmem : (mk_pairing "01/01/2025" "TOW"
      { row := ex_suA, key := "alice", preference := build_match_preference ex_suA }
      (some { row := ex_suB, key := "bob", preference := build_match_preference ex_suB })) ∈
      generate_pairings_for_week "01/01/2025" "TOW" true true ex_db1 := by decide
  ⟨hmem, (C9_emitted_fields "01/01/2025" "TOW" true true ex_db1 _ hmem).1⟩

/-- With pairwise-distinct keys, dropping the elements carrying the key of a
member is exactly erasing that member. -/
theorem filter_ne_key_eq_erase {l : List MatcherSignup} {c : MatcherSignup}
    (hmem : c ∈ l) (hnd : (l.map (fun m => m.key)).Nodup) :
    l.filter (fun m => m.key ≠ c.key) = l.erase c := by
  induction l with
  | nil => cases hmem
  | cons a t ih =>
    rw [List.map_cons, List.nodup_cons] at hnd
    obtain ⟨hka, hndt⟩ := hnd
    rcases List.mem_cons.mp hmem with rfl | hct
    · rw [List.erase_cons_head]
      rw [List.filter_cons_of_neg (by simp)]
      apply List.filter_eq_self.mpr
      intro b hb
      simp only [decide_eq_true_eq]
      intro hkey
      exact hka (hkey ▸ List.mem_map_of_mem (fun m => m.key) hb)
    · have hane : ¬ a = c := by
        rintro rfl
        exact hka (List.mem_map_of_mem (fun m => m.key) hct)
      have hkne : a.key ≠ c.key := by
        intro hkey
        exact hka (hkey ▸ List.mem_map_of_mem (fun m => m.key) hct)
      rw [List.erase_cons_tail (by simp [hane]), List.filter_cons_of_pos (by simpa using hkne),
        ih hct hndt]

/-- When the parity-bias conditions fail, the candidate list is untouched. -/
theorem parity_bias_eq_of_inactive (allow_tnt : Bool) (system : String)
    (cands : List MatcherSignup)
    (h : ¬ parity_bias_active allow_tnt system cands) :
    parity_bias allow_tnt system cands = cands := by
  unfold parity_bias
  by_cases h1 : allow_tnt = true ∧ system = "TOW" ∧ cands.length % 2 = 1
  · rw [if_pos h1]
    by_cases h2 : 3 ≤ (cands.filter (fun m => m.row.tnt_ok)).length
    · exact absurd ⟨h1.1, h1.2.1, h1.2.2, h2⟩ h
    · rw [if_neg h2]
  · rw [if_neg h1]

/-- When the parity-bias conditions hold and keys are distinct, the pass
moves the last opted-in candidate to the end and preserves the multiset. -/
theorem parity_bias_eq_of_active (allow_tnt : Bool) (system : String)
    (cands : List MatcherSignup)
    (h : parity_bias_active allow_tnt system cands)
    (hnd : (cands.map (fun m => m.key)).Nodup) :
    ∃ c, c ∈ cands ∧ c.row.tnt_ok = true ∧
      parity_bias allow_tnt system cands =
        cands.filter (fun m => m.key ≠ c.key) ++ [c] ∧
      (parity_bias allow_tnt system cands).Perm cands := by
  obtain ⟨hat, hsys, hodd, hlen⟩ := h
  have hpool : cands.filter (fun m => m.row.tnt_ok) ≠ [] := by
    intro hnil
    rw [hnil] at hlen
    simp at hlen
  set chosen := (cands.filter (fun m => m.row.tnt_ok)).getLast hpool with hch
  have hmemf : chosen ∈ cands.filter (fun m => m.row.tnt_ok) := List.getLast_mem hpool
  have hmem : chosen ∈ cands := (List.mem_filter.mp hmemf).1
  have htnt : chosen.row.tnt_ok = true := by
    have := (List.mem_filter.mp hmemf).2
    simpa using this
  have heq : parity_bias allow_tnt system cands =
      cands.filter (fun m => m.key ≠ chosen.key) ++ [chosen] := by
    unfold parity_bias
    rw [if_pos ⟨hat, hsys, hodd⟩, if_pos hlen,
      List.getLast?_eq_getLast_of_ne_nil hpool]
  refine ⟨chosen, hmem, htnt, heq, ?_⟩
  rw [heq, filter_ne_key_eq_erase hmem hnd]
  exact (List.perm_append_singleton chosen (cands.erase chosen)).trans
    (List.perm_cons_erase hmem).symm

/-- C8: the parity-bias step reorders only when grouping is allowed, the
system is TOW, the post-intro count is odd and at least three candidates
opted in; when active it moves one opted-in candidate to the end of the
order without adding or removing any candidate. -/
theorem C8_parity_bias (allow_tnt : Bool) (system : String)
    (cands : List MatcherSignup) :
    (¬ parity_bias_active allow_tnt system cands →
       parity_bias allow_tnt system cands = cands) ∧
    (parity_bias_active allow_tnt system cands →
     (cands.map (fun m => m.key)).Nodup →
       ∃ c, c ∈ cands ∧ c.row.tnt_ok = true ∧
         parity_bias allow_tnt system cands =
           cands.filter (fun m => m.key ≠ c.key) ++ [c] ∧
         (parity_bias allow_tnt system cands).Perm cands) :=
  ⟨parity_bias_eq_of_inactive allow_tnt system cands,
   fun h hnd => parity_bias_eq_of_active allow_tnt system cands h hnd⟩

/-- Witness for C8: the inactive direction on an even pool and the active
direction on the three opted-in candidates. -/
theorem C8_parity_bias_witness :
    parity_bias true "TOW" [ex_mT1, ex_mT2] = [ex_mT1, ex_mT2] ∧
      (∃ c, c ∈ [ex_mT1, ex_mT2, ex_mT3] ∧ c.row.tnt_ok = true ∧
        parity_bias true "TOW" [ex_mT1, ex_mT2, ex_mT3] =
          ([ex_mT1, ex_mT2, ex_mT3].filter (fun m => m.key ≠ c.key)) ++ [c] ∧
        (parity_bias true "TOW" [ex_mT1, ex_mT2, ex_mT3]).Perm [ex_mT1, ex_mT2, ex_mT3]) :=
  ⟨(C8_parity_bias true "TOW" [ex_mT1, ex_mT2]).1 (by decide),
   (C8_parity_bias true "TOW" [ex_mT1, ex_mT2, ex_mT3]).2 (by decide) (by decide)⟩

/-- Scan step: a used candidate is skipped. -/
theorem scan_best_cons_used {sys : String} {seen : List (String × String)}
    {ms other : MatcherSignup} {used : List String} {rest : List MatcherSignup}
    {bd : Dist6} {b0 : Option MatcherSignup} (h : other.key ∈ used) :
    scan_best sys seen ms used (other :: rest) bd b0 =
      scan_best sys seen ms used rest bd b0 := by
  simp only [scan_best]
  rw [if_pos h]

/-- Scan step: a recent rematch is skipped. -/
theorem scan_best_cons_played {sys : String} {seen : List (String × String)}
    {ms other : MatcherSignup} {used : List String} {rest : List MatcherSignup}
    {bd : Dist6} {b0 : Option MatcherSignup} (h1 : other.key ∉ used)
    (h2 : has_played seen ms.key other.key = true) :
    scan_best sys seen ms used (other :: rest) bd b0 =
      scan_best sys seen ms used rest bd b0 := by
  simp only [scan_best]
  rw [if_neg h1, if_pos h2]

/-- Scan step: an improving candidate becomes the running best (the
early-exit branch is dead). -/
theorem scan_best_cons_lt {sys : String} {seen : List (String × String)}
    {ms other : MatcherSignup} {used : List String} {rest : List MatcherSignup}
    {bd : Dist6} {b0 : Option MatcherSignup} (h1 : other.key ∉ used)
    (h2 : has_played seen ms.key other.key = false)
    (h3 : tup_lt6 (dist6 sys ms other) bd = true) :
    scan_best sys seen ms used (other :: rest) bd b0 =
      ((scan_best sys seen ms used rest (dist6 sys ms other) (some other)).1,
        other :: (scan_best sys seen ms used rest (dist6 sys ms other) (some other)).2) := by
  simp only [scan_best]
  rw [if_neg h1, if_neg (by simp [h2]), if_pos h3,
    if_neg (by simp [dist6_eq_zero3])]

/-- Scan step: a non-improving candidate leaves the running best. -/
theorem scan_best_cons_ge {sys : String} {seen : List (String × String)}
    {ms other : MatcherSignup} {used : List String} {rest : List MatcherSignup}
    {bd : Dist6} {b0 : Option MatcherSignup} (h1 : other.key ∉ used)
    (h2 : has_played seen ms.key other.key = false)
    (h3 : tup_lt6 (dist6 sys ms other) bd = false) :
    scan_best sys seen ms used (other :: rest) bd b0 =
      ((scan_best sys seen ms used rest bd b0).1,
        other :: (scan_best sys seen ms used rest bd b0).2) := by
  simp only [scan_best]
  rw [if_neg h1, if_neg (by simp [h2]), if_neg (by simp [h3])]

/-- The best-j value always equals the result of the first scan: the
fallback scan is the same function applied to the same arguments, so
allow-repeats never changes the outcome (the repeat fallback is dead
code). -/
theorem general_best_eq_scan (sys : String) (ar : Bool)
    (seen : List (String × String)) (ms : MatcherSignup)
    (rest : List MatcherSignup) (used : List String) :
    general_best sys ar seen ms rest used =
      (scan_best sys seen ms used rest d99 none).1 := by
  cases h : (scan_best sys seen ms used rest d99 none).1 <;>
    simp [general_best, h]

/-- A scan whose running best is already set returns a partner. -/
theorem scan_best_isSome_of_some (sys : String) (seen : List (String × String))
    (ms : MatcherSignup) (used : List String) :
    ∀ (js : List MatcherSignup) (bd : Dist6) (x : MatcherSignup),
      ((scan_best sys seen ms used js bd (some x)).1).isSome = true := by
  intro js
  induction js with
  | nil => intro bd x; rfl
  | cons other rest ih =>
    intro bd x
    by_cases h1 : other.key ∈ used
    · rw [scan_best_cons_used h1]; exact ih bd x
    · cases h2 : has_played seen ms.key other.key with
      | true => rw [scan_best_cons_played h1 h2]; exact ih bd x
      | false =>
        cases h3 : tup_lt6 (dist6 sys ms other) bd with
        | true => rw [scan_best_cons_lt h1 h2 h3]; exact ih _ other
        | false => rw [scan_best_cons_ge h1 h2 h3]; exact ih bd x

/-- Any partner returned by the scan satisfies any property enjoyed by the
initial best and by every unskipped scanned candidate. -/
theorem scan_best_some_spec (sys : String) (seen : List (String × String))
    (ms : MatcherSignup) (used : List String) (Q : MatcherSignup → Prop) :
    ∀ (js : List MatcherSignup) (bd : Dist6) (b0 : Option MatcherSignup),
      (∀ x, b0 = some x → Q x) →
      (∀ x ∈ js, x.key ∉ used → has_played seen ms.key x.key = false → Q x) →
      ∀ o, (scan_best sys seen ms used js bd b0).1 = some o → Q o := by
  intro js
  induction js with
  | nil =>
    intro bd b0 hb _ o ho
    exact hb o ho
  | cons other rest ih =>
    intro bd b0 hb hjs o ho
    by_cases h1 : other.key ∈ used
    · rw [scan_best_cons_used h1] at ho
      exact ih bd b0 hb (fun x hx => hjs x (List.mem_cons_of_mem _ hx)) o ho
    · cases h2 : has_played seen ms.key other.key with
      | true =>
        rw [scan_best_cons_played h1 h2] at ho
        exact ih bd b0 hb (fun x hx => hjs x (List.mem_cons_of_mem _ hx)) o ho
      | false =>
        cases h3 : tup_lt6 (dist6 sys ms other) bd with
        | true =>
          rw [scan_best_cons_lt h1 h2 h3] at ho
          refine ih _ (some other) ?_
            (fun x hx => hjs x (List.mem_cons_of_mem _ hx)) o ho
          intro x hx
          exact (Option.some.inj hx) ▸ hjs other (List.mem_cons_self other rest) h1 h2
        | false =>
          rw [scan_best_cons_ge h1 h2 h3] at ho
          exact ih bd b0 hb (fun x hx => hjs x (List.mem_cons_of_mem _ hx)) o ho

/-- The mirror flag is zero or one. -/
theorem mirror_flag_le_one (a b : Signup) : mirror_flag a b ≤ 1 := by
  simp only [mirror_flag]
  split_ifs <;> simp

/-- Every distance tuple beats the sentinel initial best. -/
theorem tup_lt6_d99 (sys : String) (a b : MatcherSignup) :
    tup_lt6 (dist6 sys a b) d99 = true := by
  have h : mirror_flag a.row b.row < 99 :=
    lt_of_le_of_lt (mirror_flag_le_one a.row b.row) (by norm_num)
  simp [tup_lt6, dist6, d99, h]

/-- With no recent pairs, nothing is ever skipped for history. -/
theorem has_played_nil (x y : String) : has_played [] x y = false := by
  simp [has_played]

/-- With no recent pairs, the scan comes back empty exactly when every
remaining candidate is already used. -/
theorem scan_best_none_iff_nil_seen (sys : String) (ms : MatcherSignup)
    (used : List String) :
    ∀ js : List MatcherSignup,
      ((scan_best sys [] ms used js d99 none).1 = none ↔
        ∀ x ∈ js, x.key ∈ used) := by
  intro js
  induction js with
  | nil => simp [scan_best]
  | cons other rest ih =>
    by_cases h1 : other.key ∈ used
    · rw [scan_best_cons_used h1]
      simp [List.forall_mem_cons, h1, ih]
    · rw [scan_best_cons_lt h1 (has_played_nil _ _) (tup_lt6_d99 sys ms other)]
      constructor
      · intro hcontra
        have hs := scan_best_isSome_of_some sys [] ms used rest (dist6 sys ms other) other
        rw [hcontra] at hs
        simp at hs
      · intro hall
        exact absurd (hall other (List.mem_cons_self other rest)) h1

/-- With empty history and pairwise-distinct keys, the number of BYE records
of the general pass has the parity of the number of available candidates:
each step either pairs two available candidates or retires the single last
available one as a BYE. -/
theorem general_pass_bye_count_nil_seen (w sys : String) (ar : Bool) :
    ∀ (l : List MatcherSignup) (used : List String),
      (l.map (fun m => m.key)).Nodup →
      ((general_pass w sys ar [] l used).countP (fun p => p.b_signup_id.isNone)) =
        (l.filter (fun m => m.key ∉ used)).length % 2 := by
  intro l
  induction l with
  | nil => intro used _; simp [general_pass]
  | cons ms rest ih =>
    intro used hnd
    rw [List.map_cons, List.nodup_cons] at hnd
    obtain ⟨hk, hnd'⟩ := hnd
    by_cases hu : ms.key ∈ used
    · rw [general_pass, if_pos hu, List.filter_cons_of_neg (by simp [hu])]
      exact ih used hnd'
    · rw [general_pass, if_neg hu, general_best_eq_scan]
      cases hscan : (scan_best sys [] ms used rest d99 none).1 with
      | none =>
        have hall : ∀ x ∈ rest, x.key ∈ used :=
          (scan_best_none_iff_nil_seen sys ms used rest).mp hscan
        have hrest0 : rest.filter (fun m => m.key ∉ used) = [] := by
          rw [List.filter_eq_nil_iff]
          intro x hx
          simp [hall x hx]
        have hrest1 : rest.filter (fun m => m.key ∉ (ms.key :: used)) = [] := by
          rw [List.filter_eq_nil_iff]
          intro x hx
          simp [List.mem_cons, hall x hx]
        rw [List.countP_cons, List.filter_cons_of_pos (by simp [hu]), hrest0]
        have hIH := ih (ms.key :: used) hnd'
        rw [hrest1] at hIH
        simp [mk_pairing, hIH]
      | some other =>
        have hother : other ∈ rest ∧ other.key ∉ used := by
          refine scan_best_some_spec sys [] ms used
            (fun x => x ∈ rest ∧ x.key ∉ used) rest d99 none ?_ ?_ other hscan
          · intro x hx
            cases hx
          · intro x hx hxk _
            exact ⟨hx, hxk⟩
        obtain ⟨homem, hokey⟩ := hother
        have hnodupf : ((rest.filter (fun m => m.key ∉ used)).map
            (fun m => m.key)).Nodup :=
          List.Nodup.sublist (List.Sublist.map _ (List.filter_sublist _)) hnd'
        have hmemf : other ∈ rest.filter (fun m => m.key ∉ used) :=
          List.mem_filter.mpr ⟨homem, by simp [hokey]⟩
        have hstep1 : rest.filter (fun m => m.key ∉ (other.key :: ms.key :: used)) =
            (rest.filter (fun m => m.key ∉ used)).filter
              (fun m => m.key ≠ other.key) := by
          rw [List.filter_filter]
          apply List.filter_congr
          intro x hx
          have hxk : ¬ x.key = ms.key := fun he => hk (he ▸ List.mem_map_of_mem _ hx)
          simp [List.mem_cons, hxk, not_or, and_comm]
        have hstep2 : (rest.filter (fun m => m.key ∉ used)).filter
            (fun m => m.key ≠ other.key) =
            (rest.filter (fun m => m.key ∉ used)).erase other :=
          filter_ne_key_eq_erase hmemf hnodupf
        have hlenpos : 0 < (rest.filter (fun m => m.key ∉ used)).length :=
          List.length_pos_of_mem hmemf
        have hIH := ih (other.key :: ms.key :: used) hnd'
        rw [hstep1, hstep2, List.length_erase_of_mem hmemf] at hIH
        rw [List.countP_cons, List.filter_cons_of_pos (by simp [hu]), hIH]
        simp only [mk_pairing, Option.map_some', Option.isNone_some,
          Bool.false_eq_true, if_false, List.length_cons, Nat.add_zero]
        omega

/-- For an arbitrary history set, the number of BYE records of the general
pass has the parity of the number of available candidates: each step either
pairs two available candidates or retires one as a BYE. -/
theorem general_pass_bye_parity (w sys : String) (ar : Bool)
    (seen : List (String × String)) :
    ∀ (l : List MatcherSignup) (used : List String),
      (l.map (fun m => m.key)).Nodup →
      ((general_pass w sys ar seen l used).countP
          (fun p => p.b_signup_id.isNone)) % 2 =
        (l.filter (fun m => m.key ∉ used)).length % 2 := by
  intro l
  induction l with
  | nil => intro used _; simp [general_pass]
  | cons ms rest ih =>
    intro used hnd
    rw [List.map_cons, List.nodup_cons] at hnd
    obtain ⟨hk, hnd'⟩ := hnd
    by_cases hu : ms.key ∈ used
    · rw [general_pass, if_pos hu, List.filter_cons_of_neg (by simp [hu])]
      exact ih used hnd'
    · rw [general_pass, if_neg hu]
      cases hbj : general_best sys ar seen ms rest used with
      | none =>
        have hfrest : rest.filter (fun m => m.key ∉ (ms.key :: used)) =
            rest.filter (fun m => m.key ∉ used) := by
          apply List.filter_congr
          intro x hx
          have hxk : ¬ x.key = ms.key := fun he => hk (he ▸ List.mem_map_of_mem _ hx)
          simp [List.mem_cons, hxk]
        have hIH := ih (ms.key :: used) hnd'
        rw [hfrest] at hIH
        rw [List.countP_cons, List.filter_cons_of_pos (by simp [hu])]
        simp only [mk_pairing, Option.map_none', Option.isNone_none,
          List.length_cons, eq_self_iff_true, if_true]
        omega
      | some other =>
        have hother : other ∈ rest ∧ other.key ∉ used := by
          rw [general_best_eq_scan] at hbj
          refine scan_best_some_spec sys seen ms used
            (fun x => x ∈ rest ∧ x.key ∉ used) rest d99 none ?_ ?_ other hbj
          · intro x hx
            cases hx
          · intro x hx hxk _
            exact ⟨hx, hxk⟩
        obtain ⟨homem, hokey⟩ := hother
        have hnodupf : ((rest.filter (fun m => m.key ∉ used)).map
            (fun m => m.key)).Nodup :=
          List.Nodup.sublist (List.Sublist.map _ (List.filter_sublist _)) hnd'
        have hmemf : other ∈ rest.filter (fun m => m.key ∉ used) :=
          List.mem_filter.mpr ⟨homem, by simp [hokey]⟩
        have hstep1 : rest.filter (fun m => m.key ∉ (other.key :: ms.key :: used)) =
            (rest.filter (fun m => m.key ∉ used)).filter
              (fun m => m.key ≠ other.key) := by
          rw [List.filter_filter]
          apply List.filter_congr
          intro x hx
          have hxk : ¬ x.key = ms.key := fun he => hk (he ▸ List.mem_map_of_mem _ hx)
          simp [List.mem_cons, hxk, not_or, and_comm]
        have hstep2 : (rest.filter (fun m => m.key ∉ used)).filter
            (fun m => m.key ≠ other.key) =
            (rest.filter (fun m => m.key ∉ used)).erase other :=
          filter_ne_key_eq_erase hmemf hnodupf
        have hlenpos : 0 < (rest.filter (fun m => m.key ∉ used)).length :=
          List.length_pos_of_mem hmemf
        have hIH := ih (other.key :: ms.key :: used) hnd'
        rw [hstep1, hstep2, List.length_erase_of_mem hmemf] at hIH
        rw [List.countP_cons, List.filter_cons_of_pos (by simp [hu])]
        simp only [mk_pairing, Option.map_some', Option.isNone_some,
          Bool.false_eq_true, if_false, List.length_cons, Nat.add_zero]
        omega

/-- The keys of the dictionary after an upsert: unchanged when the key is
present, appended otherwise. -/
theorem upsert_keys (k : String) (r : Signup) :
    ∀ acc : List (String × Signup),
      (upsert_latest acc k r).map Prod.fst =
        if k ∈ acc.map Prod.fst then acc.map Prod.fst
        else acc.map Prod.fst ++ [k] := by
  intro acc
  induction acc with
  | nil => simp [upsert_latest]
  | cons kv t ih =>
    obtain ⟨k0, r0⟩ := kv
    by_cases hk : k0 = k
    · subst hk
      by_cases hca : r0.created_at < r.created_at
      · simp [upsert_latest, hca, List.mem_cons]
      · simp [upsert_latest, hca, List.mem_cons]
    · simp only [upsert_latest, if_neg hk, List.map_cons]
      rw [ih]
      by_cases hmem : k ∈ t.map Prod.fst
      · simp [hmem, List.mem_cons]
      · simp [hmem, List.mem_cons, Ne.symm hk]

/-- The latest-wins dictionary has pairwise-distinct keys. -/
theorem dedup_latest_keys_nodup (rows : List Signup) :
    ((dedup_latest rows).map Prod.fst).Nodup := by
  suffices h : ∀ acc : List (String × Signup), (acc.map Prod.fst).Nodup →
      ((rows.foldl (fun acc r => upsert_latest acc (norm_key r.player_name) r)
        acc).map Prod.fst).Nodup by
    exact h [] (by simp)
  induction rows with
  | nil => intro acc h; simpa using h
  | cons r t ih =>
    intro acc h
    simp only [List.foldl_cons]
    apply ih
    rw [upsert_keys]
    split_ifs with hmem
    · exact h
    · rw [List.nodup_append]
      refine ⟨h, List.nodup_singleton _, ?_⟩
      intro x hx hxk
      simp only [List.mem_singleton] at hxk
      exact hmem (hxk ▸ hx)

/-- The candidate pool of a week and system has pairwise-distinct keys. -/
theorem candidates_for_keys_nodup (w s : String) (db : DB) :
    ((candidates_for w s db).map (fun m => m.key)).Nodup := by
  unfold candidates_for
  rw [List.map_map]
  have hcomp : ((fun m : MatcherSignup => m.key) ∘ fun kv : String × Signup =>
      ({ row := kv.2, key := kv.1,
         preference := build_match_preference kv.2 } : MatcherSignup)) = Prod.fst := rfl
  rw [hcomp]
  exact dedup_latest_keys_nodup _

/-- The sorted post-intro pool keeps pairwise-distinct keys. -/
theorem post_intro_pool_keys_nodup (w s : String) (db : DB) :
    ((post_intro_pool w s db).map (fun m => m.key)).Nodup := by
  unfold post_intro_pool
  have h1 : (((candidates_for w s db).filter
      (fun m => !((intro_pass w s (candidates_for w s db)).2.contains m.key))).map
        (fun m => m.key)).Nodup :=
    List.Nodup.sublist (List.Sublist.map _ (List.filter_sublist _))
      (candidates_for_keys_nodup w s db)
  exact ((List.perm_insertionSort cand_le _).map _).nodup_iff.mpr h1

/-- The parity-bias step permutes the pool when keys are distinct. -/
theorem parity_bias_perm (a : Bool) (s : String) (l : List MatcherSignup)
    (hnd : (l.map (fun m => m.key)).Nodup) : (parity_bias a s l).Perm l := by
  by_cases h : parity_bias_active a s l
  · obtain ⟨c, _, _, _, hp⟩ := parity_bias_eq_of_active a s l h hnd
    exact hp
  · rw [parity_bias_eq_of_inactive a s l h]

/-- The parity-bias step keeps keys pairwise distinct. -/
theorem parity_bias_keys_nodup (a : Bool) (s : String) (l : List MatcherSignup)
    (hnd : (l.map (fun m => m.key)).Nodup) :
    ((parity_bias a s l).map (fun m => m.key)).Nodup :=
  ((parity_bias_perm a s l hnd).map _).nodup_iff.mpr hnd

/-- The parity-bias step preserves the pool size. -/
theorem parity_bias_length (a : Bool) (s : String) (l : List MatcherSignup)
    (hnd : (l.map (fun m => m.key)).Nodup) :
    (parity_bias a s l).length = l.length :=
  (parity_bias_perm a s l hnd).length_eq

/-- The intro pass emits no BYE record. -/
theorem intro_pass_no_bye (w s : String) (cands : List MatcherSignup) :
    ((intro_pass w s cands).1.countP (fun p => p.b_signup_id.isNone)) = 0 := by
  rw [List.countP_eq_zero]
  intro p hp
  obtain ⟨a, b, rfl⟩ := intro_pass_shape w s cands p hp
  simp [mk_pairing]

/-- C3 amended: for an odd post-intro pool the number of BYE records is odd
(hence at least one) under any history, and equals exactly one when the
recent-history set is empty. -/
theorem C3_odd_pool_amended (week system : String) (ar tnt : Bool) (db : DB)
    (hodd : (post_intro_pool week system db).length % 2 = 1) :
    (((generate_pairings_for_week week system ar tnt db).countP
        (fun p => p.b_signup_id.isNone)) % 2 = 1 ∧
      1 ≤ (generate_pairings_for_week week system ar tnt db).countP
        (fun p => p.b_signup_id.isNone)) ∧
    (previous_pairs_recent system week 2 db = [] →
      ((generate_pairings_for_week week system ar tnt db).countP
        (fun p => p.b_signup_id.isNone)) = 1) := by
  have hpoolne : ¬ (candidates_for week system db).isEmpty = true := by
    intro hc
    have hcnil : candidates_for week system db = [] := by
      simpa using hc
    have hpool : post_intro_pool week system db = [] := by
      unfold post_intro_pool
      simp [hcnil, sort_candidates]
    rw [hpool] at hodd
    simp at hodd
  have hkey3 : ((parity_bias tnt system (post_intro_pool week system db)).map
      (fun m => m.key)).Nodup :=
    parity_bias_keys_nodup tnt system _ (post_intro_pool_keys_nodup week system db)
  have hfilterall : (parity_bias tnt system (post_intro_pool week system db)).filter
      (fun m => m.key ∉ ([] : List String)) =
      parity_bias tnt system (post_intro_pool week system db) :=
    List.filter_eq_self.mpr (by intro a _; simp)
  have hlen : (parity_bias tnt system (post_intro_pool week system db)).length =
      (post_intro_pool week system db).length :=
    parity_bias_length tnt system _ (post_intro_pool_keys_nodup week system db)
  constructor
  · have hpar : ((generate_pairings_for_week week system ar tnt db).countP
        (fun p => p.b_signup_id.isNone)) % 2 = 1 := by
      simp only [generate_pairings_for_week]
      rw [if_neg hpoolne, List.countP_append, intro_pass_no_bye, Nat.zero_add,
        general_pass_bye_parity week system ar _ _ [] hkey3, hfilterall, hlen, hodd]
    exact ⟨hpar, by omega⟩
  · intro hseen
    simp only [generate_pairings_for_week]
    rw [if_neg hpoolne, hseen, List.countP_append, intro_pass_no_bye,
      general_pass_bye_count_nil_seen week system ar _ [] hkey3, hfilterall, hlen, hodd]

/-- Witness for the amended C3: the three-candidate no-history pool yields
exactly one BYE, and the fully rematched three-candidate pool still yields
an odd BYE count. -/
theorem C3_odd_pool_amended_witness :
    (post_intro_pool "01/01/2025" "TOW" ex_db1).length % 2 = 1 ∧
      ((generate_pairings_for_week "01/01/2025" "TOW" true true ex_db1).countP
        (fun p => p.b_signup_id.isNone)) % 2 = 1 ∧
      ((generate_pairings_for_week "01/01/2025" "TOW" true true ex_db1).countP
        (fun p => p.b_signup_id.isNone)) = 1 ∧
      ((generate_pairings_for_week "01/01/2025" "TOW" true true ex_dbH3).countP
        (fun p => p.b_signup_id.isNone)) % 2 = 1 :=
  ⟨by decide,
    (C3_odd_pool_amended "01/01/2025" "TOW" true true ex_db1 (by decide)).1.1,
    (C3_odd_pool_amended "01/01/2025" "TOW" true true ex_db1 (by decide)).2 (by decide),
    (C3_odd_pool_amended "01/01/2025" "TOW" true true ex_dbH3 (by decide)).1.1⟩

/-- Id invariant of the general pass: referenced ids are pairwise distinct
and each belongs to a candidate of the pool that was free on entry. -/
theorem general_pass_ids (w s : String) (ar : Bool)
    (seen : List (String × String)) :
    ∀ (l : List MatcherSignup) (used : List String),
      (l.map (fun m => m.key)).Nodup →
      (∀ c ∈ l, ∀ d ∈ l, c.row.id = d.row.id → c.key = d.key) →
      (ref_ids (general_pass w s ar seen l used)).Nodup ∧
      (∀ i ∈ ref_ids (general_pass w s ar seen l used),
        ∃ c, c ∈ l ∧ c.key ∉ used ∧ c.row.id = i) := by
  intro l
  induction l with
  | nil =>
    intro used _ _
    constructor
    · simp [general_pass, ref_ids]
    · intro i hi
      simp [general_pass, ref_ids] at hi
  | cons ms rest ih =>
    intro used hnd hinj
    rw [List.map_cons, List.nodup_cons] at hnd
    obtain ⟨hk, hnd'⟩ := hnd
    have hinj' : ∀ c ∈ rest, ∀ d ∈ rest, c.row.id = d.row.id → c.key = d.key :=
      fun c hc d hd =>
        hinj c (List.mem_cons_of_mem _ hc) d (List.mem_cons_of_mem _ hd)
    by_cases hu : ms.key ∈ used
    · have heq : general_pass w s ar seen (ms :: rest) used =
          general_pass w s ar seen rest used := by
        rw [general_pass, if_pos hu]
      rw [heq]
      obtain ⟨h1, h2⟩ := ih used hnd' hinj'
      refine ⟨h1, fun i hi => ?_⟩
      obtain ⟨c, hc, hcu, hcid⟩ := h2 i hi
      exact ⟨c, List.mem_cons_of_mem _ hc, hcu, hcid⟩
    · cases hbj : general_best s ar seen ms rest used with
      | none =>
        have heq : general_pass w s ar seen (ms :: rest) used =
            mk_pairing w s ms none ::
              general_pass w s ar seen rest (ms.key :: used) := by
          rw [general_pass, if_neg hu, hbj]
        obtain ⟨h1, h2⟩ := ih (ms.key :: used) hnd' hinj'
        constructor
        · rw [heq, ref_ids_bye_cons, List.nodup_cons]
          refine ⟨?_, h1⟩
          intro hin
          obtain ⟨c, hc, hcu, hcid⟩ := h2 _ hin
          have : c.key = ms.key :=
            hinj c (List.mem_cons_of_mem _ hc) ms (List.mem_cons_self _ _) hcid
          exact hcu (this ▸ List.mem_cons_self _ _)
        · intro i hi
          rw [heq, ref_ids_bye_cons] at hi
          rcases List.mem_cons.mp hi with rfl | hi2
          · exact ⟨ms, List.mem_cons_self _ _, hu, rfl⟩
          · obtain ⟨c, hc, hcu, hcid⟩ := h2 _ hi2
            exact ⟨c, List.mem_cons_of_mem _ hc,
              fun hcu2 => hcu (List.mem_cons_of_mem _ hcu2), hcid⟩
      | some other =>
        have hother : other ∈ rest ∧ other.key ∉ used := by
          rw [general_best_eq_scan] at hbj
          refine scan_best_some_spec s seen ms used
            (fun x => x ∈ rest ∧ x.key ∉ used) rest d99 none ?_ ?_ other hbj
          · intro x hx; cases hx
          · intro x hx h1 _; exact ⟨hx, h1⟩
        obtain ⟨homem, hokey⟩ := hother
        have hkne : other.key ≠ ms.key := by
          intro he
          exact hk (he ▸ List.mem_map_of_mem _ homem)
        have hidne : ms.row.id ≠ other.row.id := by
          intro hid
          exact hkne (hinj other (List.mem_cons_of_mem _ homem) ms
            (List.mem_cons_self _ _) hid.symm)
        have heq : general_pass w s ar seen (ms :: rest) used =
            mk_pairing w s ms (some other) ::
              general_pass w s ar seen rest (other.key :: ms.key :: used) := by
          rw [general_pass, if_neg hu, hbj]
        obtain ⟨h1, h2⟩ := ih (other.key :: ms.key :: used) hnd' hinj'
        constructor
        · rw [heq, ref_ids_pair_cons, List.nodup_cons, List.nodup_cons]
          refine ⟨?_, ?_, h1⟩
          · intro hin
            rcases List.mem_cons.mp hin with hid | hin2
            · exact hidne hid
            · obtain ⟨c, hc, hcu, hcid⟩ := h2 _ hin2
              have : c.key = ms.key :=
                hinj c (List.mem_cons_of_mem _ hc) ms (List.mem_cons_self _ _) hcid
              exact hcu (this ▸ List.mem_cons_of_mem _ (List.mem_cons_self _ _))
          · intro hin
            obtain ⟨c, hc, hcu, hcid⟩ := h2 _ hin
            have : c.key = other.key :=
              hinj c (List.mem_cons_of_mem _ hc) other
                (List.mem_cons_of_mem _ homem) hcid
            exact hcu (this ▸ List.mem_cons_self _ _)
        · intro i hi
          rw [heq, ref_ids_pair_cons] at hi
          rcases List.mem_cons.mp hi with rfl | hi2
          · exact ⟨ms, List.mem_cons_self _ _, hu, rfl⟩
          · rcases List.mem_cons.mp hi2 with rfl | hi3
            · exact ⟨other, List.mem_cons_of_mem _ homem, hokey, rfl⟩
            · obtain ⟨c, hc, hcu, hcid⟩ := h2 _ hi3
              exact ⟨c, List.mem_cons_of_mem _ hc,
                fun hcu2 => hcu (List.mem_cons_of_mem _ (List.mem_cons_of_mem _ hcu2)),
                hcid⟩

/-- Id invariant of the intro pass: referenced ids are pairwise distinct and
each belongs to a pool candidate whose key lands in the used-intro set. -/
theorem intro_pass_ids (w s : String) (cands : List MatcherSignup)
    (hinj : ∀ c ∈ cands, ∀ d ∈ cands, c.row.id = d.row.id → c.key = d.key) :
    (ref_ids (intro_pass w s cands).1).Nodup ∧
    ∀ i ∈ ref_ids (intro_pass w s cands).1,
      ∃ c, c ∈ cands ∧ c.key ∈ (intro_pass w s cands).2 ∧ c.row.id = i := by
  unfold intro_pass
  split_ifs with hs
  · have hinj2 : ∀ c d : MatcherSignup,
        c ∈ cands.filter is_intro_seeker ∨
          c ∈ cands.filter (fun m => m.row.can_demo) →
        d ∈ cands.filter is_intro_seeker ∨
          d ∈ cands.filter (fun m => m.row.can_demo) →
        c.row.id = d.row.id → c.key = d.key := by
      intro c d hc hd
      exact hinj c (hc.elim List.mem_of_mem_filter List.mem_of_mem_filter)
        d (hd.elim List.mem_of_mem_filter List.mem_of_mem_filter)
    obtain ⟨h1, h2⟩ := intro_loop_ids w s (cands.filter (fun m => m.row.can_demo))
      (cands.filter is_intro_seeker) [] hinj2
    refine ⟨h1, fun i hi => ?_⟩
    obtain ⟨c, hc, _, hcused, hcid⟩ := h2 i hi
    exact ⟨c, hc.elim List.mem_of_mem_filter List.mem_of_mem_filter, hcused, hcid⟩
  · constructor
    · simp [ref_ids]
    · intro i hi
      simp [ref_ids] at hi

/-- With pairwise-distinct stored ids, the full engine output references
every signup id at most once. -/
theorem generate_ref_ids_nodup (week system : String) (ar tnt : Bool)
    (db : DB) (hids : (db.signups.map (fun su => su.id)).Nodup) :
    (ref_ids (generate_pairings_for_week week system ar tnt db)).Nodup := by
  simp only [generate_pairings_for_week]
  split_ifs with hc
  · simp [ref_ids]
  · rw [ref_ids_append, List.nodup_append]
    have hinj0 : ∀ c ∈ candidates_for week system db,
        ∀ d ∈ candidates_for week system db, c.row.id = d.row.id → c.key = d.key :=
      fun c hc d hd hid =>
        congrArg MatcherSignup.key (candidates_for_inj week system db hids c hc d hd hid)
    obtain ⟨hin1, hin2⟩ := intro_pass_ids week system (candidates_for week system db) hinj0
    have hmem3 : ∀ x ∈ parity_bias tnt system (post_intro_pool week system db),
        x ∈ candidates_for week system db ∧
          ((intro_pass week system (candidates_for week system db)).2.contains x.key)
            = false :=
      fun x hx => mem_post_intro_pool week system db x (mem_parity_bias tnt system _ x hx)
    have hnd3 : ((parity_bias tnt system (post_intro_pool week system db)).map
        (fun m => m.key)).Nodup :=
      parity_bias_keys_nodup tnt system _ (post_intro_pool_keys_nodup week system db)
    have hinj3 : ∀ c ∈ parity_bias tnt system (post_intro_pool week system db),
        ∀ d ∈ parity_bias tnt system (post_intro_pool week system db),
          c.row.id = d.row.id → c.key = d.key :=
      fun c hcm d hdm => hinj0 c (hmem3 c hcm).1 d (hmem3 d hdm).1
    obtain ⟨hg1, hg2⟩ := general_pass_ids week system ar
      (previous_pairs_recent system week 2 db) _ [] hnd3 hinj3
    refine ⟨hin1, hg1, ?_⟩
    intro i hiIn hiGen
    obtain ⟨c1, hc1mem, hc1used, hc1id⟩ := hin2 i hiIn
    obtain ⟨c2, hc2mem, _, hc2id⟩ := hg2 i hiGen
    obtain ⟨hc2cands, hc2contains⟩ := hmem3 c2 hc2mem
    have hceq : c1 = c2 :=
      candidates_for_inj week system db hids c1 hc1mem c2 hc2cands
        (hc1id.trans hc2id.symm)
    rw [hceq] at hc1used
    have hcont : ((intro_pass week system (candidates_for week system db)).2.contains
        c2.key) = true :=
      List.elem_eq_true_of_mem hc1used
    rw [hcont] at hc2contains
    cases hc2contains

/-- Each pairing satisfying the membership predicate for an id contributes
at least one occurrence of that id among the referenced ids. -/
theorem countP_le_count_ref_ids (i : Nat) :
    ∀ ps : List Pairing,
      ps.countP (fun p => p.a_signup_id = i ∨ p.b_signup_id = some i) ≤
        (ref_ids ps).count i := by
  intro ps
  induction ps with
  | nil => simp [ref_ids]
  | cons p t ih =>
    have hsplit : ref_ids (p :: t) =
        (p.a_signup_id :: p.b_signup_id.toList) ++ ref_ids t := by
      simp [ref_ids]
    rw [List.countP_cons, hsplit, List.count_append]
    by_cases hp : p.a_signup_id = i ∨ p.b_signup_id = some i
    · have hmem : i ∈ p.a_signup_id :: p.b_signup_id.toList := by
        rcases hp with h | h
        · exact h ▸ List.mem_cons_self _ _
        · exact List.mem_cons_of_mem _ (by simp [h])
      have hpos : 0 < (p.a_signup_id :: p.b_signup_id.toList).count i :=
        List.count_pos_iff.mpr hmem
      rw [decide_eq_true hp, if_pos rfl]
      omega
    · rw [decide_eq_false hp, if_neg Bool.false_ne_true]
      omega

/-- C2: with pairwise-distinct stored ids, each pool candidate appears (as
the a-side or b-side reference) in at most one emitted PairingResult across
both passes. -/
theorem C2_no_duplicate_participation (week system : String) (ar tnt : Bool)
    (db : DB) (hids : (db.signups.map (fun su => su.id)).Nodup) :
    ∀ c ∈ candidates_for week system db,
      ((generate_pairings_for_week week system ar tnt db).countP
        (fun p => p.a_signup_id = c.row.id ∨ p.b_signup_id = some c.row.id)) ≤ 1 := by
  intro c _
  calc ((generate_pairings_for_week week system ar tnt db).countP
      (fun p => p.a_signup_id = c.row.id ∨ p.b_signup_id = some c.row.id))
      ≤ (ref_ids (generate_pairings_for_week week system ar tnt db)).count c.row.id :=
        countP_le_count_ref_ids c.row.id _
    _ ≤ 1 := List.nodup_iff_count_le_one.mp
        (generate_ref_ids_nodup week system ar tnt db hids) c.row.id

/-- Witness for C2: Alice participates exactly once in the three-candidate
run. -/
theorem C2_no_duplicate_participation_witness :
    ({ row := ex_suA, key := "alice",
       preference := build_match_preference ex_suA } : MatcherSignup) ∈
        candidates_for "01/01/2025" "TOW" ex_db1 ∧
    ((generate_pairings_for_week "01/01/2025" "TOW" true true ex_db1).countP
      (fun p => p.a_signup_id = ex_suA.id ∨ p.b_signup_id = some ex_suA.id)) ≤ 1 :=
  ⟨by decide,
    C2_no_duplicate_participation "01/01/2025" "TOW" true true ex_db1 (by decide)
      { row := ex_suA, key := "alice", preference := build_match_preference ex_suA }
      (by decide)⟩

/-- Characterization of the per-record contribution to the recent-pairs
set. -/
theorem prev_pair_of_eq_some_iff (db : DB) (cw mw : Nat) (pr : Pairing)
    (p : String × String) :
    prev_pair_of db cw mw pr = some p ↔
      ∃ bid, pr.b_signup_id = some bid ∧
      ∃ pw, parse_week_id pr.week = some pw ∧
        ((cw : Int) - (pw : Int)).natAbs / 7 ≤ mw ∧
      ∃ a, find_signup db pr.a_signup_id = some a ∧
      ∃ b, find_signup db bid = some b ∧
        norm_key a.player_name ≠ norm_key b.player_name ∧
        p = sort_pair (norm_key a.player_name) (norm_key b.player_name) := by
  cases hb : pr.b_signup_id with
  | none => simp [prev_pair_of, hb]
  | some bid =>
    cases hw : parse_week_id pr.week with
    | none => simp [prev_pair_of, hb, hw]
    | some pw =>
      by_cases hwin : ((cw : Int) - (pw : Int)).natAbs / 7 ≤ mw
      · cases hfa : find_signup db pr.a_signup_id with
        | none => simp [prev_pair_of, hb, hw, hwin, hfa]
        | some a =>
          cases hfb : find_signup db bid with
          | none => simp [prev_pair_of, hb, hw, hwin, hfa, hfb]
          | some b =>
            by_cases hnn : norm_key a.player_name = norm_key b.player_name
            · simp [prev_pair_of, hb, hw, hwin, hfa, hfb, hnn]
            · simp [prev_pair_of, hb, hw, hwin, hfa, hfb, hnn, eq_comm]
      · simp [prev_pair_of, hb, hw, hwin]

/-- C6: a normalized name pair is in the recent-pairs set exactly when some
stored pairing record of the system is non-BYE, its week parses, its
distance to the target week in floored weeks is within the window, both
signups resolve, and the normalized lowercase names differ; in particular
no BYE record and no self-pair ever contributes. -/
theorem C6_previous_pairs_membership (system current_week : String) (mw : Nat)
    (db : DB) (cw : Nat) (hcw : parse_week_id current_week = some cw)
    (p : String × String) :
    p ∈ previous_pairs_recent system current_week mw db ↔
      ∃ pr, pr ∈ db.pairings ∧ pr.system = system ∧
        (∃ bid, pr.b_signup_id = some bid ∧
         ∃ pw, parse_week_id pr.week = some pw ∧
           ((cw : Int) - (pw : Int)).natAbs / 7 ≤ mw ∧
         ∃ a, find_signup db pr.a_signup_id = some a ∧
         ∃ b, find_signup db bid = some b ∧
           norm_key a.player_name ≠ norm_key b.player_name ∧
           p = sort_pair (norm_key a.player_name) (norm_key b.player_name)) := by
  unfold previous_pairs_recent
  rw [hcw]
  simp only [List.mem_filterMap, List.mem_filter, prev_pair_of_eq_some_iff, beq_iff_eq]
  constructor
  · rintro ⟨pr, ⟨hmem, hsys⟩, hrest⟩
    exact ⟨pr, hmem, hsys, hrest⟩
  · rintro ⟨pr, hmem, hsys, hrest⟩
    exact ⟨pr, ⟨hmem, hsys⟩, hrest⟩

/-- Witness for C6: the stored Alice-Bob pairing of one week earlier puts
the pair (alice, bob) in the set. -/
theorem C6_previous_pairs_membership_witness :
    ("alice", "bob") ∈ previous_pairs_recent "TOW" "01/01/2025" 2 ex_dbH :=
  (C6_previous_pairs_membership "TOW" "01/01/2025" 2 ex_dbH 739252 (by decide)
      ("alice", "bob")).mpr
    ⟨{ week := "25/12/2024", system := "TOW", a_signup_id := 1, b_signup_id := some 2 },
      by decide, rfl, 2, rfl, 739245, by decide, by decide,
      ex_suA, by decide, ex_suB, by decide, by decide, by decide⟩

/-- C5 counterexample: two databases holding the same signups in different
input order (all creation timestamps tied) yield different outputs, because
the intro pass runs in pre-sort dictionary order. -/
theorem C5_permutation_counterexample :
    ex_dbP2.signups.Perm ex_dbP1.signups ∧ ex_dbP2.pairings = ex_dbP1.pairings ∧
      generate_pairings_for_week "W" "TOW" true true ex_dbP1 ≠
        generate_pairings_for_week "W" "TOW" true true ex_dbP2 := by
  refine ⟨by decide, rfl, by decide⟩

/-- Two sorted lists that are permutations of each other and have
pairwise-distinct sort keys are equal. -/
theorem sorted_perm_created_eq :
    ∀ {l₁ l₂ : List Signup}, l₁.Perm l₂ →
      l₁.Sorted by_created → l₂.Sorted by_created →
      l₁.Pairwise (fun a b => a.created_at ≠ b.created_at) → l₁ = l₂ := by
  intro l₁
  induction l₁ with
  | nil =>
    intro l₂ hp _ _ _
    exact hp.nil_eq
  | cons a t ih =>
    intro l₂ hp hs₁ hs₂ hne
    cases l₂ with
    | nil =>
      cases hp.eq_nil
    | cons b t₂ =>
      by_cases hab : a = b
      · subst hab
        rw [ih hp.cons_inv hs₁.of_cons hs₂.of_cons hne.of_cons]
      · exfalso
        have hbmem : b ∈ a :: t := hp.symm.subset (List.mem_cons_self b t₂)
        have hamem : a ∈ b :: t₂ := hp.subset (List.mem_cons_self a t)
        have hbt : b ∈ t := by
          rcases List.mem_cons.mp hbmem with h | h
          · exact absurd h.symm hab
          · exact h
        have hat2 : a ∈ t₂ := by
          rcases List.mem_cons.mp hamem with h | h
          · exact absurd h hab
          · exact h
        have h1 : by_created a b := List.rel_of_sorted_cons hs₁ b hbt
        have h2 : by_created b a := List.rel_of_sorted_cons hs₂ a hat2
        exact (List.pairwise_cons.mp hne).1 b hbt (Nat.le_antisymm h1 h2)

/-- A find over a permuted list with a unique satisfying element is
unchanged. -/
theorem find?_eq_of_perm_of_unique {p : Signup → Bool} {l₁ l₂ : List Signup}
    (hp : l₁.Perm l₂)
    (huniq : ∀ a ∈ l₁, ∀ b ∈ l₁, p a = true → p b = true → a = b) :
    l₁.find? p = l₂.find? p := by
  cases h₁ : l₁.find? p with
  | none =>
    cases h₂ : l₂.find? p with
    | none => rfl
    | some x =>
      exact absurd (List.find?_some h₂)
        (List.find?_eq_none.mp h₁ x (hp.symm.subset (List.mem_of_find?_eq_some h₂)))
  | some x =>
    have hxmem : x ∈ l₁ := List.mem_of_find?_eq_some h₁
    have hxp : p x = true := List.find?_some h₁
    cases h₂ : l₂.find? p with
    | none =>
      exact absurd hxp (List.find?_eq_none.mp h₂ x (hp.subset hxmem))
    | some y =>
      rw [huniq x hxmem y (hp.symm.subset (List.mem_of_find?_eq_some h₂)) hxp
        (List.find?_some h₂)]

/-- With unique stored ids, the primary-key lookup is insensitive to the
storage order of the signups. -/
theorem find_signup_eq_of_perm (db db2 : DB)
    (hperm : db2.signups.Perm db.signups)
    (hids : (db.signups.map (fun su => su.id)).Nodup) (i : Nat) :
    find_signup db2 i = find_signup db i := by
  unfold find_signup
  apply find?_eq_of_perm_of_unique hperm
  intro a ha b hb hpa hpb
  have hak : a.id = i := by simpa using hpa
  have hbk : b.id = i := by simpa using hpb
  exact List.inj_on_of_nodup_map hids (hperm.subset ha) (hperm.subset hb)
    (hak.trans hbk.symm)

/-- The recent-pairs set is insensitive to the storage order of the
signups. -/
theorem previous_pairs_recent_eq_of_perm (system week : String) (mw : Nat)
    (db db2 : DB) (hperm : db2.signups.Perm db.signups)
    (hpairs : db2.pairings = db.pairings)
    (hids : (db.signups.map (fun su => su.id)).Nodup) :
    previous_pairs_recent system week mw db2 =
      previous_pairs_recent system week mw db := by
  unfold previous_pairs_recent
  cases parse_week_id week with
  | none => rfl
  | some cw =>
    rw [hpairs]
    dsimp only
    have hf : prev_pair_of db2 cw mw = prev_pair_of db cw mw := by
      funext pr
      unfold prev_pair_of
      have hfs : find_signup db2 = find_signup db :=
        funext (find_signup_eq_of_perm db db2 hperm hids)
      rw [hfs]
    rw [hf]

/-- C5 amended: permuting the stored signups leaves the output unchanged,
provided ids are unique and the creation timestamps of the queried week are
pairwise distinct. -/
theorem C5_determinism_amended (week system : String) (ar tnt : Bool)
    (db db2 : DB) (hperm : db2.signups.Perm db.signups)
    (hpairs : db2.pairings = db.pairings)
    (hids : (db.signups.map (fun su => su.id)).Nodup)
    (hca : (db.signups.filter
        (fun r => r.week == week && r.system == system)).Pairwise
      (fun a b => a.created_at ≠ b.created_at)) :
    generate_pairings_for_week week system ar tnt db2 =
      generate_pairings_for_week week system ar tnt db := by
  have hq := hperm.filter (fun r => r.week == week && r.system == system)
  have hsort2 : (sort_rows (db2.signups.filter
      (fun r => r.week == week && r.system == system))).Perm
      (db.signups.filter (fun r => r.week == week && r.system == system)) :=
    (List.perm_insertionSort by_created _).trans hq
  have hrows : sort_rows (db2.signups.filter
      (fun r => r.week == week && r.system == system)) =
      sort_rows (db.signups.filter
        (fun r => r.week == week && r.system == system)) := by
    apply sorted_perm_created_eq
    · exact hsort2.trans (List.perm_insertionSort by_created _).symm
    · exact List.sorted_insertionSort by_created _
    · exact List.sorted_insertionSort by_created _
    · exact (hsort2.pairwise_iff (fun h => Ne.symm h)).mpr hca
  have hcands : candidates_for week system db2 = candidates_for week system db := by
    unfold candidates_for
    rw [hrows]
  have hprev : previous_pairs_recent system week 2 db2 =
      previous_pairs_recent system week 2 db :=
    previous_pairs_recent_eq_of_perm system week 2 db db2 hperm hpairs hids
  have hpool : post_intro_pool week system db2 = post_intro_pool week system db := by
    unfold post_intro_pool
    rw [hcands]
  simp only [generate_pairings_for_week]
  rw [hcands, hprev, hpool]

/-- Witness for the amended C5: the three-candidate store with permuted
input order and distinct timestamps yields the identical output. -/
theorem C5_determinism_amended_witness :
    ex_db1P.signups.Perm ex_db1.signups ∧
      generate_pairings_for_week "01/01/2025" "TOW" true true ex_db1P =
        generate_pairings_for_week "01/01/2025" "TOW" true true ex_db1 :=
  ⟨by decide,
    C5_determinism_amended "01/01/2025" "TOW" true true ex_db1 ex_db1P
      (by decide) rfl (by decide) (by decide)⟩

end OWP
